import Mathlib

/-!
Shallow embedding of the `city_db` table storage engine
(`src/durability/table/{table.rs, column_definition.rs, column_type.rs}`
and `src/durability/database.rs`).

Machine integers are modelled as `Nat`; byte encodings use explicit
little-endian lists (the source uses `to_ne_bytes`/`from_ne_bytes` on an
x86-64 little-endian target).  A file is a partial map from byte offset to
byte; `write_all_at` always succeeds (environment I/O failures are outside
the pure model), while `read_exact_at` fails exactly when some requested
byte was never written.  Rust panics (index out of bounds, `%`/`/` by
zero, `unwrap()` of an `Err`) are modelled by `Option`, with `none`
standing for the panic.
-/

namespace CityDb

/-- Little-endian byte encoding of `n` in `w` bytes (`to_ne_bytes`). -/
def toLeBytes : Nat → Nat → List Nat
  | 0, _ => []
  | w + 1, n => n % 256 :: toLeBytes w (n / 256)

/-- Little-endian byte decoding (`from_ne_bytes`). -/
def fromLeBytes : List Nat → Nat
  | [] => 0
  | b :: bs => b + 256 * fromLeBytes bs

/-- A file is a partial map from byte offset to byte value. -/
def File : Type := Nat → Option Nat

/-- A freshly created, empty file. -/
def emptyFile : File := fun _ => none

/-- Source `file.write_all_at(bytes, off)`: positioned write of a byte slice. -/
def writeAllAt (f : File) (bs : List Nat) (off : Nat) : File :=
  fun i => if off ≤ i ∧ i < off + bs.length then some (bs.getD (i - off) 0) else f i

/-- Sequence a list of optional values (`none` propagates). -/
def mapOpt (g : α → Option β) : List α → Option (List β)
  | [] => some []
  | a :: as =>
      match g a, mapOpt g as with
      | some b, some bs => some (b :: bs)
      | _, _ => none

/-- Source `file.read_exact_at(buf, off)`: succeeds iff every requested byte exists. -/
def readExactAt (f : File) (off n : Nat) : Option (List Nat) :=
  mapOpt (fun i => f (off + i)) (List.range n)

/-- Source `%` on machine integers: Rust panics when the divisor is zero. -/
def checkedMod (a b : Nat) : Option Nat :=
  if b = 0 then none else some (a % b)

/-- Source `src/durability/table/column_type.rs`: `COLUMN_TYPE_INT`. -/
def COLUMN_TYPE_INT : Nat := 1

/-- Source `src/durability/table/column_type.rs`: `COLUMN_TYPE_VARCHAR`. -/
def COLUMN_TYPE_VARCHAR : Nat := 2

/-- Source `src/durability/table/column_type.rs`: `enum ColumnType`. -/
inductive ColumnType : Type
  | Int : ColumnType
  | Varchar : ColumnType
deriving DecidableEq, Repr

/-- Source `impl Into<u32> for &ColumnType`. -/
def ColumnType.code : ColumnType → Nat
  | .Int => COLUMN_TYPE_INT
  | .Varchar => COLUMN_TYPE_VARCHAR

/-- Source `ColumnType::bytes`: the u32 type code in native (little-endian) order. -/
def ColumnType.bytes (ct : ColumnType) : List Nat :=
  toLeBytes 4 ct.code

/-- Source `src/durability/table/column_definition.rs`: `struct ColumnDefinition`.
`name` is a `[u8; 64]` buffer, `length` a `u64`. -/
structure ColumnDefinition : Type where
  name : List Nat
  column_type : ColumnType
  length : Nat
deriving DecidableEq, Repr

/-- Source `ColumnDefinition::new`; `copy_from_slice` panics when the name exceeds
the 64-byte buffer, modelled as `none`. -/
def ColumnDefinition.new (name : List Nat) (column_type : ColumnType)
    (length : Nat) : Option ColumnDefinition :=
  if name.length ≤ 64 then
    some { name := name ++ List.replicate (64 - name.length) 0,
           column_type := column_type, length := length }
  else none

/-- Source `ColumnDefinition::size`. -/
def ColumnDefinition.size : Nat := 76

/-- Source `ColumnDefinition::bytes`: `[name:64][type_code:4][length:8]`. -/
def ColumnDefinition.bytes (c : ColumnDefinition) : List Nat :=
  c.name ++ c.column_type.bytes ++ toLeBytes 8 c.length

/-- Source `src/durability/table/table.rs`: `struct Row`. -/
structure Row : Type where
  data : List (List Nat)
deriving DecidableEq, Repr

/-- Source `src/durability/table/table.rs`: `struct Table`.
`column_count` is a `u32`, `row_count` a `u64`. -/
structure Table : Type where
  name : List Nat
  column_count : Nat
  columns : List ColumnDefinition
  row_count : Nat
deriving DecidableEq, Repr

/-- Source `struct Page`: the memory-mapped view is modelled by the list of bytes
it exposes. -/
structure Page : Type where
  data : List Nat
  page_number : Nat
deriving DecidableEq, Repr

/-- Source `src/durability/table/table.rs`: `MAX_PAGE_SIZE`. -/
def MAX_PAGE_SIZE : Nat := 128

namespace Table

/-- Source `Table::new`; the `copy_from_slice` into the 64-byte name buffer panics
(`none`) when the name is longer than 64 bytes.  `columns.len() as u32`
truncates to 32 bits. -/
def new (name : List Nat) (columns : List ColumnDefinition) : Option Table :=
  if name.length ≤ 64 then
    some { name := name ++ List.replicate (64 - name.length) 0,
           column_count := columns.length % 2 ^ 32,
           columns := columns,
           row_count := 0 }
  else none

/-- Source `Table::row_size`: sum of the column lengths. -/
def row_size (t : Table) : Nat :=
  t.columns.foldl (fun acc column => acc + column.length) 0

/-- Source `Table::header_size`: `68 + column_count * 76 + 8`. -/
def header_size (t : Table) : Nat :=
  68 + t.column_count * ColumnDefinition.size + 8

/-- Source `Table::page_size`: `MAX_PAGE_SIZE - MAX_PAGE_SIZE % row_size` when the
row is smaller than the target page, otherwise `row_size`; the `%` panics
(`none`) when `row_size` is zero. -/
def page_size (t : Table) : Option Nat :=
  if t.row_size < MAX_PAGE_SIZE then
    (checkedMod MAX_PAGE_SIZE t.row_size).map (fun m => MAX_PAGE_SIZE - m)
  else some t.row_size

/-- Source `Table::page_count`: `page_size` is evaluated before the
`row_count == 0` early return, so a zero `row_size` panics either way. -/
def page_count (t : Table) : Option Nat :=
  (t.page_size).map fun ps =>
    if t.row_count = 0 then 0 else t.row_size * t.row_count / ps + 1

/-- Source `Table::last_page_at_limit`. -/
def last_page_at_limit (t : Table) : Option Bool :=
  (t.page_size).map fun ps => (t.row_size * t.row_count) % ps == 0

/-- Source `Table::write_row_count_to_disk`: rewrites the 8-byte row-count field at
offset `68 + column_count * 76`.  The positioned write itself cannot fail in
the pure file model. -/
def write_row_count_to_disk (t : Table) (f : File) : File :=
  writeAllAt f (toLeBytes 8 t.row_count) (68 + t.column_count * ColumnDefinition.size)

/-- Source `Table::add_page`: appends a zero-filled page.  The offset uses
`header_size` directly for an empty table and `header_size + page_count *
page_size` otherwise. -/
def add_page (t : Table) (f : File) : Option File :=
  match t.page_size, t.page_count with
  | some ps, some pc =>
      let page_offset := if t.row_count = 0 then t.header_size
        else t.header_size + pc * ps
      some (writeAllAt f (List.replicate ps 0) page_offset)
  | _, _ => none

/-- Source `Table::page_at`: rejects `page > page_count()` (strict), then maps
`page_size` bytes at `header_size + page * page_size`.  The mapped view
reads the current file contents, absent bytes as zero. -/
def page_at (t : Table) (f : File) (page : Nat) : Option (Except String Page) :=
  match t.page_count with
  | none => none
  | some pc =>
      if page > pc then some (.error "Invalid page number")
      else
        match t.page_size with
        | none => none
        | some ps =>
            let offset := t.header_size + page * ps
            some (.ok { data := (List.range ps).map fun i => (f (offset + i)).getD 0,
                        page_number := page })

/-- Rust slice `l[a..b]` (panics, i.e. `none`, when `b < a` or `b > len`). -/
def slice (l : List Nat) (a b : Nat) : Option (List Nat) :=
  if a ≤ b ∧ b ≤ l.length then some ((l.drop a).take (b - a)) else none

/-- The per-column slicing of one row's bytes in `Table::page_rows`:
column `j` is sliced at `[column.length * j, column.length * (j + 1))`. -/
def decodeRowVals (cols : List ColumnDefinition) (row_data : List Nat) :
    Option (List (List Nat)) :=
  mapOpt (fun p => slice row_data (p.2.length * p.1) (p.2.length * p.1 + p.2.length))
    cols.enum

/-- Source `Table::page_rows`: decides how many rows the given page holds, then
slices them out.  When `row_size` is zero, the preceding `page_size` call
already panics. -/
def page_rows (t : Table) (page : Page) : Option (List Row) :=
  match t.page_size with
  | none => none
  | some ps =>
      let rs := t.row_size
      let rows_in_page := ps / rs
      let cnt : Option Nat :=
        if t.row_count > rows_in_page then
          (t.page_count).map fun pc =>
            if page.page_number = pc - 1 then t.row_count % rows_in_page
            else rows_in_page
        else some t.row_count
      match cnt with
      | none => none
      | some row_count =>
          (mapOpt (fun i =>
              match slice page.data (i * rs) (i * rs + rs) with
              | none => none
              | some row_data => (decodeRowVals t.columns row_data).map Row.mk)
            (List.range row_count))

/-- Row encoding inside `Table::add_row`: for each column in order, check
the supplied value fits, zero-pad it to the column length, and concatenate.
Indexing `row.data[i]` with too few values panics (`none`); surplus values
are ignored because the loop runs over the columns. -/
def encodeRow : List ColumnDefinition → List (List Nat) →
    Option (Except String (List Nat))
  | [], _ => some (.ok [])
  | _ :: _, [] => none
  | c :: cs, v :: vs =>
      if c.length < v.length then some (.error "Invalid column data")
      else
        match encodeRow cs vs with
        | none => none
        | some (.error e) => some (.error e)
        | some (.ok rest) =>
            some (.ok ((v ++ List.replicate (c.length - v.length) 0) ++ rest))

/-- Source `Table::add_row`.  Returns the call's result together with the table and
file as left by the call (`&mut` state); validation failures return before
any mutation.  `none` models a panic. -/
def add_row (t : Table) (row : Row) (f : File) :
    Option (Except String Unit × Table × File) :=
  if row.data.length ≠ t.column_count then
    some (.error ("Invalid row data expected " ++ toString t.column_count ++
      " columns got " ++ toString row.data.length ++ " "), t, f)
  else
    match encodeRow t.columns row.data with
    | none => none
    | some (.error e) => some (.error e, t, f)
    | some (.ok row_bytes) =>
        if row_bytes.length ≠ t.row_size then
          some (.error ("Invalid final row size got " ++ toString row_bytes.length ++
            ", expected " ++ toString t.row_size), t, f)
        else
          match t.last_page_at_limit with
          | none => none
          | some at_limit =>
              match (if at_limit then t.add_page f else some f) with
              | none => none
              | some f1 =>
                  let f2 := writeAllAt f1 row_bytes
                    (t.header_size + t.row_size * t.row_count)
                  let t1 : Table := { t with row_count := t.row_count + 1 }
                  (some (.ok (), t1, t1.write_row_count_to_disk f2))

end Table

/-- Source `src/durability/mod.rs`: `enum DurabilityError`; the wrapped
`std::io::Error` is modelled by a message string. -/
inductive DurabilityError : Type
  | IoError : String → DurabilityError
  | DbError : String → DurabilityError
deriving DecidableEq, Repr

/-- Source `read_exact_at` as used by `Table::read_from_disk`: an incomplete read
surfaces as `DurabilityError::IoError`. -/
def ioRead (f : File) (off n : Nat) : Except DurabilityError (List Nat) :=
  match readExactAt f off n with
  | none => .error (.IoError "failed to fill whole buffer")
  | some l => .ok l

namespace Table

/-- Source `Durable::write_to_disk` for `Table`: name at 0, column count at 64,
column definitions at 68 + 76·i, then the row count (whose write result is
discarded by the source). -/
def writeColumns (f : File) : List ColumnDefinition → Nat → File
  | [], _ => f
  | c :: cs, offset => writeColumns (writeAllAt f c.bytes offset) cs (offset + ColumnDefinition.size)

/-- Source `Durable::write_to_disk` for `Table`. -/
def write_to_disk (t : Table) (f : File) : File :=
  let f1 := writeAllAt f t.name 0
  let f2 := writeAllAt f1 (toLeBytes 4 t.column_count) 64
  let f3 := writeColumns f2 t.columns 68
  t.write_row_count_to_disk f3

/-- One iteration of the column-reading loop in `Table::read_from_disk`:
name (64 bytes), type code (4 bytes, decoded before the length is read,
with the error message quoting `column_type_buff[0]`), length (8 bytes). -/
def readColumn (f : File) (offset : Nat) : Except DurabilityError ColumnDefinition := do
  let column_name_buff ← ioRead f offset 64
  let column_type_buff ← ioRead f (offset + 64) 4
  let column_type ←
    match fromLeBytes column_type_buff with
    | 1 => Except.ok ColumnType.Int
    | 2 => Except.ok ColumnType.Varchar
    | _ => Except.error (.DbError
        ("Invalid column type: " ++ toString (column_type_buff.getD 0 0)))
  let column_length_buff ← ioRead f (offset + 68) 8
  Except.ok { name := column_name_buff, column_type := column_type,
              length := fromLeBytes column_length_buff }

/-- The `for _ in 0..column_count` loop of `Table::read_from_disk`. -/
def readColumnsLoop (f : File) (offset : Nat) :
    Nat → Except DurabilityError (List ColumnDefinition)
  | 0 => .ok []
  | n + 1 => do
      let c ← readColumn f offset
      let rest ← readColumnsLoop f (offset + ColumnDefinition.size) n
      Except.ok (c :: rest)

/-- Source `Durable::read_from_disk` for `Table`. -/
def read_from_disk (f : File) : Except DurabilityError Table := do
  let name_buff ← ioRead f 0 64
  let column_count_buff ← ioRead f 64 4
  let column_count := fromLeBytes column_count_buff
  let columns ← readColumnsLoop f 68 column_count
  let row_count_buff ← ioRead f (68 + column_count * ColumnDefinition.size) 8
  Except.ok { name := name_buff, column_count := column_count,
              columns := columns, row_count := fromLeBytes row_count_buff }

end Table

/-- Source `src/durability/database.rs`: `struct DatabaseFileHeader`. -/
structure DatabaseFileHeader : Type where
  name : List Nat
  table_count : Nat
deriving DecidableEq, Repr

namespace DatabaseFileHeader

/-- Source `Durable::write_to_disk` for `DatabaseFileHeader`: two positioned
writes; in the pure model the writes complete, so the short-write checks
pass. -/
def write_to_disk (h : DatabaseFileHeader) (f : File) :
    Except DurabilityError File :=
  let f1 := writeAllAt f h.name 0
  .ok (writeAllAt f1 (toLeBytes 4 h.table_count) 64)

/-- Source `Durable::read_from_disk` for `DatabaseFileHeader`: the source calls
`file.read_exact(&mut header_buffer).unwrap()`, so a failed read — e.g. a
file shorter than 68 bytes — panics instead of returning the error.  The
panic is modelled as `none`. -/
def read_from_disk (f : File) : Option (Except DurabilityError DatabaseFileHeader) :=
  match readExactAt f 0 68 with
  | none => none
  | some header_buffer =>
      some (.ok { name := header_buffer.take 64,
                  table_count := fromLeBytes (header_buffer.drop 64) })

end DatabaseFileHeader

/-- The well-formedness every `Table` built by the program enjoys: a full
64-byte name buffer, `column_count` equal to the number of columns and
fitting `u32`, 64-byte column name buffers, `u64` column lengths and a
`u64` row count. -/
def Table.WF (t : Table) : Prop :=
  t.name.length = 64 ∧
  t.column_count = t.columns.length ∧
  t.columns.length < 2 ^ 32 ∧
  (∀ c ∈ t.columns, c.name.length = 64 ∧ c.length < 2 ^ 64) ∧
  t.row_count < 2 ^ 64

/-- A row that passes `add_row`'s validation: one value per column, each
value no longer than its column's declared length. -/
def Table.validRow (t : Table) (r : Row) : Prop :=
  r.data.length = t.column_count ∧
  ∀ p ∈ r.data.zip t.columns, p.1.length ≤ p.2.length

/-- The header bytes of `t` as they sit in file `f`: name at 0, column
count at 64, the i-th column definition at `68 + 76·i`, row count right
after the last column definition. -/
def Table.headerOn (t : Table) (f : File) : Prop :=
  readExactAt f 0 64 = some t.name ∧
  readExactAt f 64 4 = some (toLeBytes 4 t.column_count) ∧
  (∀ i (hi : i < t.columns.length),
    readExactAt f (68 + ColumnDefinition.size * i) ColumnDefinition.size
      = some (t.columns.get ⟨i, hi⟩).bytes) ∧
  readExactAt f (68 + t.column_count * ColumnDefinition.size) 8
    = some (toLeBytes 8 t.row_count)

instance (t : Table) (r : Row) : Decidable (t.validRow r) :=
  inferInstanceAs (Decidable (r.data.length = t.column_count ∧
    ∀ p ∈ r.data.zip t.columns, p.1.length ≤ p.2.length))

instance (t : Table) : Decidable t.WF :=
  inferInstanceAs (Decidable (t.name.length = 64 ∧
    t.column_count = t.columns.length ∧
    t.columns.length < 2 ^ 32 ∧
    (∀ c ∈ t.columns, c.name.length = 64 ∧ c.length < 2 ^ 64) ∧
    t.row_count < 2 ^ 64))

/-- Driver iterating `Table::add_row` over a list of rows; any error result
or panic stops the run. -/
def Table.addRowsRun (t : Table) (f : File) : List Row → Option (Table × File)
  | [] => some (t, f)
  | r :: rest =>
      match t.add_row r f with
      | some (.ok _, t1, f1) => Table.addRowsRun t1 f1 rest
      | _ => none

/-- Driver iterating `Table::add_row` `k` times with one fixed row while
counting how many of the calls invoked `add_page` — `add_row` calls
`add_page` exactly when `last_page_at_limit()` holds at entry
(table.rs line 205). -/
def Table.addRowRunAlloc (t : Table) (f : File) (r : Row) :
    Nat → Option (Table × File × Nat)
  | 0 => some (t, f, 0)
  | k + 1 =>
      match Table.addRowRunAlloc t f r k with
      | some (t1, f1, a) =>
          match t1.last_page_at_limit, t1.add_row r f1 with
          | some b, some (.ok _, t2, f2) => some (t2, f2, a + (if b then 1 else 0))
          | _, _ => none
      | none => none

/-- A raw table file holding the given 64-byte name, one header slot per
entry of `cols` (64-byte column name, arbitrary 4-byte type code, 8-byte
length) and a row count — used to express `read_from_disk` claims about
arbitrary on-disk type codes. -/
def mkRawTableFile (name : List Nat) (cols : List (List Nat × Nat × Nat))
    (rc : Nat) : File :=
  let f1 := writeAllAt emptyFile name 0
  let f2 := writeAllAt f1 (toLeBytes 4 cols.length) 64
  let f3 := cols.enum.foldl (fun f p =>
    writeAllAt f (p.2.1 ++ toLeBytes 4 p.2.2.1 ++ toLeBytes 8 p.2.2.2)
      (68 + ColumnDefinition.size * p.1)) f2
  writeAllAt f3 (toLeBytes 8 rc) (68 + cols.length * ColumnDefinition.size)

/-- Concrete table with a single `Int` column of length 11 (so
`page_size() = 121` and 11 rows fill a page exactly). -/
def tableOne11 : Table :=
  { name := List.replicate 64 0,
    column_count := 1,
    columns := [{ name := List.replicate 64 0, column_type := .Int, length := 11 }],
    row_count := 0 }

/-- Concrete `accounts`-style table: two `Int` columns of length 11. -/
def tableAccounts : Table :=
  { name := List.replicate 64 0,
    column_count := 2,
    columns := [{ name := List.replicate 64 0, column_type := .Int, length := 11 },
                { name := List.replicate 64 0, column_type := .Int, length := 11 }],
    row_count := 0 }

/-- Concrete table with no columns: `row_size() = 0`. -/
def tableNoCols : Table :=
  { name := List.replicate 64 0, column_count := 0, columns := [], row_count := 0 }

/-- A one-byte value for the single column of `tableOne11`. -/
def rowOne : Row := { data := [[49]] }

def exceptDecEq {ε : Type u} {α : Type v} [DecidableEq ε] [DecidableEq α] :
    (x y : Except ε α) → Decidable (x = y)
  | .ok a, .ok b =>
      match decEq a b with
      | isTrue h => isTrue (h ▸ rfl)
      | isFalse h => isFalse fun hc => h (Except.ok.inj hc)
  | .error a, .error b =>
      match decEq a b with
      | isTrue h => isTrue (h ▸ rfl)
      | isFalse h => isFalse fun hc => h (Except.error.inj hc)
  | .ok _, .error _ => isFalse fun hc => Except.noConfusion hc
  | .error _, .ok _ => isFalse fun hc => Except.noConfusion hc

instance {ε : Type u} {α : Type v} [DecidableEq ε] [DecidableEq α] :
    DecidableEq (Except ε α) := exceptDecEq

/-- Row whose single value has 12 bytes: one byte longer than the single
length-11 column of `tableOne11`. -/
def rowTooLong : Row := { data := [List.replicate 12 0] }

/-- The row of the spec's concrete scenario: values "123" and "1". -/
def rowAccounts : Row := { data := [[49, 50, 51], [49]] }

/-- A 121-byte all-zero page window with page number 0. -/
def pageZero121 : Page := { data := List.replicate 121 0, page_number := 0 }

/-- A 121-byte all-zero page window with page number 1. -/
def pageOne121 : Page := { data := List.replicate 121 0, page_number := 1 }

/-- A raw single-column table file whose stored column type code is 257
(neither 1 nor 2). -/
def badTypeFile : File :=
  mkRawTableFile (List.replicate 64 0) [(List.replicate 64 0, 257, 5)] 0

/-! ### Basic lemmas about bytes, files and reads -/

theorem toLeBytes_length (w n : Nat) : (toLeBytes w n).length = w := by
  induction w generalizing n with
  | zero => rfl
  | succ w ih => simp [toLeBytes, ih]

theorem fromLeBytes_toLeBytes (w n : Nat) :
    fromLeBytes (toLeBytes w n) = n % 256 ^ w := by
  induction w generalizing n with
  | zero => simp [toLeBytes, fromLeBytes, Nat.mod_one]
  | succ w ih =>
      simp only [toLeBytes, fromLeBytes, ih]
      rw [pow_succ, mul_comm (256 ^ w) 256, Nat.mod_mul]

theorem toLeBytes_head (w n : Nat) :
    (toLeBytes (w + 1) n).getD 0 0 = n % 256 := rfl

theorem mapOpt_eq_some_of_forall (g : α → Option β) (h : α → β) (l : List α)
    (hg : ∀ a ∈ l, g a = some (h a)) : mapOpt g l = some (l.map h) := by
  induction l with
  | nil => rfl
  | cons a as ih =>
      have ha := hg a (List.mem_cons_self a as)
      have has := ih fun x hx => hg x (List.mem_cons_of_mem a hx)
      simp [mapOpt, ha, has]

theorem mapOpt_congr (g g' : α → Option β) (l : List α)
    (h : ∀ a ∈ l, g a = g' a) : mapOpt g l = mapOpt g' l := by
  induction l with
  | nil => rfl
  | cons a as ih =>
      simp [mapOpt, h a (List.mem_cons_self a as),
        ih fun x hx => h x (List.mem_cons_of_mem a hx)]

theorem writeAllAt_apply_inside (f : File) (bs : List Nat) (off i : Nat)
    (h1 : off ≤ i) (h2 : i < off + bs.length) :
    writeAllAt f bs off i = some (bs.getD (i - off) 0) := by
  simp [writeAllAt, h1, h2]

theorem writeAllAt_apply_outside (f : File) (bs : List Nat) (off i : Nat)
    (h : i < off ∨ off + bs.length ≤ i) :
    writeAllAt f bs off i = f i := by
  simp only [writeAllAt, ite_eq_right_iff]
  intro hc
  omega

theorem mapOpt_map (g : β → Option γ) (h : α → β) (l : List α) :
    mapOpt g (l.map h) = mapOpt (fun a => g (h a)) l := by
  induction l with
  | nil => rfl
  | cons a as ih => simp only [List.map_cons, mapOpt, ih]

theorem list_getD_range_map (bs : List Nat) :
    (List.range bs.length).map (fun i => bs.getD i 0) = bs := by
  induction bs with
  | nil => rfl
  | cons b tl ih =>
      rw [List.length_cons, List.range_succ_eq_map, List.map_cons, List.map_map]
      have hmap : List.map ((fun i => (b :: tl).getD i 0) ∘ Nat.succ) (List.range tl.length)
          = List.map (fun i => tl.getD i 0) (List.range tl.length) :=
        List.map_congr_left fun i _ => by simp [List.getD_cons_succ]
      rw [hmap, ih, List.getD_cons_zero]

/-- Reading back exactly the bytes just written. -/
theorem readExactAt_writeAllAt (f : File) (bs : List Nat) (off : Nat) :
    readExactAt (writeAllAt f bs off) off bs.length = some bs := by
  unfold readExactAt
  have hmain : mapOpt (fun i => writeAllAt f bs off (off + i)) (List.range bs.length)
      = some ((List.range bs.length).map (fun i => bs.getD i 0)) := by
    refine mapOpt_eq_some_of_forall _ _ _ fun i hi => ?_
    have hlt : i < bs.length := List.mem_range.mp hi
    rw [writeAllAt_apply_inside f bs off (off + i) (Nat.le_add_right _ _)
      (by omega)]
    have h2 : off + i - off = i := by omega
    rw [h2]
  rw [hmain, list_getD_range_map]

/-- A read is unaffected by anything that only changed bytes outside its window. -/
theorem readExactAt_congr (f g : File) (off n : Nat)
    (h : ∀ i, off ≤ i → i < off + n → f i = g i) :
    readExactAt f off n = readExactAt g off n := by
  unfold readExactAt
  refine mapOpt_congr _ _ _ fun i hi => ?_
  have := List.mem_range.mp hi
  exact h (off + i) (Nat.le_add_right _ _) (by omega)

/-- A read is unaffected by a write to a disjoint region. -/
theorem readExactAt_writeAllAt_disjoint (f : File) (bs : List Nat)
    (woff off n : Nat) (h : off + n ≤ woff ∨ woff + bs.length ≤ off) :
    readExactAt (writeAllAt f bs woff) off n = readExactAt f off n := by
  refine readExactAt_congr _ _ _ _ fun i h1 h2 => ?_
  exact writeAllAt_apply_outside f bs woff i (by omega)

/-- Unfolding a read of `n + 1` bytes into first byte plus the rest. -/
theorem readExactAt_succ (f : File) (off n : Nat) :
    readExactAt f off (n + 1) =
      match f off, readExactAt f (off + 1) n with
      | some b, some bs => some (b :: bs)
      | _, _ => none := by
  unfold readExactAt
  rw [List.range_succ_eq_map]
  simp only [mapOpt, mapOpt_map, Nat.add_zero]
  rw [mapOpt_congr (fun a => f (off + Nat.succ a)) (fun i => f (off + 1 + i)) _
    (fun a _ => by
      show f (off + Nat.succ a) = f (off + 1 + a)
      have hoff : off + Nat.succ a = off + 1 + a := by omega
      rw [hoff])]
  cases hc : f off <;>
    cases hm : mapOpt (fun i => f (off + 1 + i)) (List.range n) <;> rfl

theorem readExactAt_zero (f : File) (off : Nat) :
    readExactAt f off 0 = some [] := rfl

/-- Splitting a read of `m + n` bytes into two consecutive reads. -/
theorem readExactAt_add (f : File) (off m n : Nat) (l : List Nat)
    (h : readExactAt f off (m + n) = some l) :
    readExactAt f off m = some (l.take m) ∧
      readExactAt f (off + m) n = some (l.drop m) := by
  induction m generalizing off l with
  | zero =>
      constructor
      · exact readExactAt_zero f off
      · simpa using h
  | succ m ih =>
      have hsm : m + 1 + n = (m + n) + 1 := by omega
      rw [hsm, readExactAt_succ] at h
      cases hb : f off with
      | none => rw [hb] at h; simp at h
      | some b =>
          rw [hb] at h
          cases htl : readExactAt f (off + 1) (m + n) with
          | none => rw [htl] at h; simp at h
          | some tl =>
              rw [htl] at h
              simp only [Option.some.injEq] at h
              obtain ⟨h1, h2⟩ := ih (off + 1) tl htl
              constructor
              · rw [readExactAt_succ, hb, h1, ← h]
                rfl
              · have hoff : off + (m + 1) = off + 1 + m := by omega
                rw [hoff, h2, ← h]
                rfl

/-! ### Structural lemmas about the table model -/

theorem Table.row_size_eq_sum (t : Table) :
    t.row_size = (t.columns.map fun c => c.length).sum := by
  have key : ∀ (l : List ColumnDefinition) (a : Nat),
      l.foldl (fun acc column => acc + column.length) a
        = a + (l.map fun c => c.length).sum := by
    intro l
    induction l with
    | nil => intro a; simp
    | cons c cs ih =>
        intro a
        simp only [List.foldl_cons, List.map_cons, List.sum_cons, ih]
        omega
  simpa [Table.row_size] using key t.columns 0

theorem ColumnDefinition.bytes_length (c : ColumnDefinition)
    (h : c.name.length = 64) : c.bytes.length = 76 := by
  simp [ColumnDefinition.bytes, ColumnType.bytes, toLeBytes_length, h]

/-- Source `page_size` succeeds exactly on positive `row_size`, with the source's
value. -/
theorem Table.page_size_eq (t : Table) (h : 0 < t.row_size) :
    t.page_size = some (if t.row_size < 128 then 128 - 128 % t.row_size
      else t.row_size) := by
  unfold Table.page_size checkedMod MAX_PAGE_SIZE
  rcases Nat.lt_or_ge t.row_size 128 with hlt | hge
  · simp [hlt, Nat.pos_iff_ne_zero.mp h]
  · simp [Nat.not_lt.mpr hge, Nat.not_lt.mpr hge]

theorem Table.page_size_none (t : Table) (h : t.row_size = 0) :
    t.page_size = none := by
  unfold Table.page_size checkedMod MAX_PAGE_SIZE
  simp [h]

/-- Source `128 - 128 % r = r * (128 / r)`: the clamped page is a whole number of
rows. -/
theorem Table.page_size_spec (t : Table) (P : Nat) (h : 0 < t.row_size)
    (hP : t.page_size = some P) :
    t.row_size ∣ P ∧ t.row_size ≤ P ∧ 0 < P ∧
      P = t.row_size * (P / t.row_size) := by
  rw [Table.page_size_eq t h] at hP
  have hP' := Option.some.inj hP
  have hdvd : t.row_size ∣ P := by
    rcases Nat.lt_or_ge t.row_size 128 with hlt | hge
    · rw [if_pos hlt] at hP'
      have hmod := Nat.div_add_mod 128 t.row_size
      have : P = t.row_size * (128 / t.row_size) := by omega
      exact ⟨128 / t.row_size, this⟩
    · rw [if_neg (Nat.not_lt.mpr hge)] at hP'
      exact ⟨1, by omega⟩
  have hle : t.row_size ≤ P := by
    rcases Nat.lt_or_ge t.row_size 128 with hlt | hge
    · rw [if_pos hlt] at hP'
      have hm : 128 % t.row_size < t.row_size := Nat.mod_lt 128 h
      have hq : 1 ≤ 128 / t.row_size :=
        (Nat.one_le_div_iff h).mpr (Nat.le_of_lt hlt)
      have hmul : t.row_size * 1 ≤ t.row_size * (128 / t.row_size) :=
        Nat.mul_le_mul_left _ hq
      have hdm := Nat.div_add_mod 128 t.row_size
      generalize hg : t.row_size * (128 / t.row_size) = X at hmul hdm
      omega
    · rw [if_neg (Nat.not_lt.mpr hge)] at hP'
      omega
  refine ⟨hdvd, hle, by omega, ?_⟩
  exact (Nat.mul_div_cancel' hdvd).symm

theorem Table.page_count_eq (t : Table) (P : Nat) (hP : t.page_size = some P) :
    t.page_count = some (if t.row_count = 0 then 0
      else t.row_size * t.row_count / P + 1) := by
  simp [Table.page_count, hP]

theorem Table.last_page_at_limit_eq (t : Table) (P : Nat)
    (hP : t.page_size = some P) :
    t.last_page_at_limit = some ((t.row_size * t.row_count) % P == 0) := by
  simp [Table.last_page_at_limit, hP]

/-! ### `mapOpt` success and length -/

theorem mapOpt_isSome (g : α → Option β) (l : List α)
    (h : ∀ a ∈ l, (g a).isSome) :
    ∃ l', mapOpt g l = some l' ∧ l'.length = l.length := by
  induction l with
  | nil => exact ⟨[], rfl, rfl⟩
  | cons a as ih =>
      obtain ⟨b, hb⟩ := Option.isSome_iff_exists.mp (h a (List.mem_cons_self a as))
      obtain ⟨l', hl', hlen⟩ := ih fun x hx => h x (List.mem_cons_of_mem a hx)
      exact ⟨b :: l', by simp [mapOpt, hb, hl'], by simp [hlen]⟩

theorem mapOpt_length (g : α → Option β) (l : List α) (l' : List β)
    (h : mapOpt g l = some l') : l'.length = l.length := by
  induction l generalizing l' with
  | nil => simp [mapOpt] at h; simp [← h]
  | cons a as ih =>
      simp only [mapOpt] at h
      cases hg : g a with
      | none => rw [hg] at h; simp at h
      | some b =>
          rw [hg] at h
          cases hm : mapOpt g as with
          | none => rw [hm] at h; simp at h
          | some bs =>
              rw [hm] at h
              simp only [Option.some.injEq] at h
              rw [← h]
              simp [ih bs hm]

/-! ### Lemmas about the header writes -/

/-- Source `writeColumns` only writes at offsets `≥ offset`. -/
theorem Table.writeColumns_frame (cs : List ColumnDefinition) (f : File)
    (offset j : Nat) (h : j < offset) :
    Table.writeColumns f cs offset j = f j := by
  induction cs generalizing f offset with
  | nil => rfl
  | cons c cs ih =>
      unfold Table.writeColumns
      rw [ih _ _ (by omega)]
      exact writeAllAt_apply_outside f c.bytes offset j (Or.inl h)

/-- Reading back the i-th column slot written by `writeColumns`. -/
theorem Table.writeColumns_read (cs : List ColumnDefinition) (f : File)
    (offset i : Nat) (hi : i < cs.length)
    (hname : ∀ c ∈ cs, c.name.length = 64) :
    readExactAt (Table.writeColumns f cs offset)
        (offset + ColumnDefinition.size * i) ColumnDefinition.size
      = some (cs.get ⟨i, hi⟩).bytes := by
  induction cs generalizing f offset i with
  | nil => exact absurd hi (by simp)
  | cons c cs ih =>
      unfold Table.writeColumns
      cases i with
      | zero =>
          have hlen : c.bytes.length = 76 :=
            c.bytes_length (hname c (List.mem_cons_self c cs))
          have hcongr : readExactAt
              (Table.writeColumns (writeAllAt f c.bytes offset) cs
                (offset + ColumnDefinition.size))
              (offset + ColumnDefinition.size * 0) ColumnDefinition.size
            = readExactAt (writeAllAt f c.bytes offset)
              (offset + ColumnDefinition.size * 0) ColumnDefinition.size := by
            refine readExactAt_congr _ _ _ _ fun j h1 h2 => ?_
            refine Table.writeColumns_frame cs _ _ j ?_
            unfold ColumnDefinition.size at h2 ⊢
            omega
          rw [hcongr]
          have : offset + ColumnDefinition.size * 0 = offset := by
            unfold ColumnDefinition.size
            omega
          rw [this]
          have hread := readExactAt_writeAllAt f c.bytes offset
          rw [hlen] at hread
          simpa [ColumnDefinition.size] using hread
      | succ i' =>
          have hi' : i' < cs.length := by simpa using hi
          have := ih (writeAllAt f c.bytes offset) (offset + ColumnDefinition.size) i' hi'
            (fun x hx => hname x (List.mem_cons_of_mem c hx))
          have hoff : offset + ColumnDefinition.size * (i' + 1)
              = offset + ColumnDefinition.size + ColumnDefinition.size * i' := by
            unfold ColumnDefinition.size
            omega
          rw [hoff]
          simpa using this

/-- Source `write_to_disk` leaves the header of `t` on the file. -/
theorem Table.write_to_disk_headerOn (t : Table) (f : File) (hwf : t.WF) :
    t.headerOn (t.write_to_disk f) := by
  obtain ⟨hname, hcc, hcclt, hcols, hrc⟩ := hwf
  unfold Table.write_to_disk Table.write_row_count_to_disk
  set f1 := writeAllAt f t.name 0 with hf1
  set f2 := writeAllAt f1 (toLeBytes 4 t.column_count) 64 with hf2
  set f3 := Table.writeColumns f2 t.columns 68 with hf3
  have hsize : ColumnDefinition.size = 76 := rfl
  refine ⟨?_, ?_, ?_, ?_⟩
  · -- name at [0, 64): untouched by the later writes
    rw [readExactAt_writeAllAt_disjoint _ _ _ _ _ (by
      rw [toLeBytes_length]; omega)]
    have h3 : readExactAt f3 0 64 = readExactAt f2 0 64 := by
      refine readExactAt_congr _ _ _ _ fun j h1 h2 => ?_
      exact Table.writeColumns_frame _ _ _ _ (by omega)
    rw [h3, hf2]
    rw [readExactAt_writeAllAt_disjoint _ _ _ _ _ (by omega)]
    have := readExactAt_writeAllAt f t.name 0
    rw [hname] at this
    exact this
  · -- column count at [64, 68)
    rw [readExactAt_writeAllAt_disjoint _ _ _ _ _ (by
      rw [toLeBytes_length]; omega)]
    have h3 : readExactAt f3 64 4 = readExactAt f2 64 4 := by
      refine readExactAt_congr _ _ _ _ fun j h1 h2 => ?_
      exact Table.writeColumns_frame _ _ _ _ (by omega)
    rw [h3, hf2]
    have := readExactAt_writeAllAt f1 (toLeBytes 4 t.column_count) 64
    rw [toLeBytes_length] at this
    exact this
  · -- column slots
    intro i hi
    rw [readExactAt_writeAllAt_disjoint _ _ _ _ _ (by
      left
      rw [hcc, hsize]
      omega)]
    have := Table.writeColumns_read t.columns f2 68 i hi
      (fun c hc => (hcols c hc).1)
    simpa using this
  · -- row count right after the columns
    have := readExactAt_writeAllAt f3 (toLeBytes 8 t.row_count)
      (68 + t.column_count * ColumnDefinition.size)
    rw [toLeBytes_length] at this
    exact this

/-! ### Lemmas about `read_from_disk` -/

theorem ioRead_ok (f : File) (off n : Nat) (l : List Nat)
    (h : readExactAt f off n = some l) : ioRead f off n = .ok l := by
  simp [ioRead, h]

/-- Reading one column slot that holds `c.bytes` reconstructs `c`. -/
theorem Table.readColumn_ok (f : File) (offset : Nat) (c : ColumnDefinition)
    (hname : c.name.length = 64)
    (hlen : c.length < 2 ^ 64)
    (h : readExactAt f offset ColumnDefinition.size = some c.bytes) :
    Table.readColumn f offset = .ok c := by
  have hsplit : ColumnDefinition.size = 64 + (4 + 8) := rfl
  rw [hsplit] at h
  have hbytes : c.bytes = c.name ++ (c.column_type.bytes ++ toLeBytes 8 c.length) := by
    simp [ColumnDefinition.bytes]
  rw [hbytes] at h
  obtain ⟨h1, h2⟩ := readExactAt_add f offset 64 (4 + 8) _ h
  have htake : (c.name ++ (c.column_type.bytes ++ toLeBytes 8 c.length)).take 64
      = c.name := by
    rw [List.take_append_of_le_length (by omega), List.take_of_length_le (by omega)]
  have hdrop : (c.name ++ (c.column_type.bytes ++ toLeBytes 8 c.length)).drop 64
      = c.column_type.bytes ++ toLeBytes 8 c.length := by
    rw [List.drop_append_of_le_length (by omega), List.drop_of_length_le (by omega)]
    simp
  rw [htake] at h1
  rw [hdrop] at h2
  obtain ⟨h3, h4⟩ := readExactAt_add f (offset + 64) 4 8 _ h2
  have htb : (c.column_type.bytes ++ toLeBytes 8 c.length).take 4
      = c.column_type.bytes := by
    rw [List.take_append_of_le_length (by
      simp [ColumnType.bytes, toLeBytes_length])]
    rw [List.take_of_length_le (by simp [ColumnType.bytes, toLeBytes_length])]
  have hlb : (c.column_type.bytes ++ toLeBytes 8 c.length).drop 4
      = toLeBytes 8 c.length := by
    rw [List.drop_append_of_le_length (by
      simp [ColumnType.bytes, toLeBytes_length])]
    rw [List.drop_of_length_le (by simp [ColumnType.bytes, toLeBytes_length])]
    simp
  rw [htb] at h3
  rw [hlb] at h4
  have h4' : readExactAt f (offset + 68) 8 = some (toLeBytes 8 c.length) := by
    have : offset + 64 + 4 = offset + 68 := by omega
    rw [← this]
    exact h4
  have hcode : fromLeBytes c.column_type.bytes = c.column_type.code := by
    rw [ColumnType.bytes, fromLeBytes_toLeBytes]
    cases c.column_type <;> rfl
  have hlenrt : fromLeBytes (toLeBytes 8 c.length) = c.length := by
    rw [fromLeBytes_toLeBytes]
    exact Nat.mod_eq_of_lt (by exact_mod_cast hlen)
  unfold Table.readColumn
  rw [ioRead_ok f offset 64 c.name h1,
    ioRead_ok f (offset + 64) 4 c.column_type.bytes h3]
  cases hct : c.column_type with
  | Int =>
      rw [hct] at hcode
      simp only [bind, Except.bind, hcode, ColumnType.code, COLUMN_TYPE_INT]
      rw [ioRead_ok f (offset + 68) 8 (toLeBytes 8 c.length) h4']
      simp only [hlenrt, Except.ok.injEq]
      cases c
      simp_all
  | Varchar =>
      rw [hct] at hcode
      simp only [bind, Except.bind, hcode, ColumnType.code, COLUMN_TYPE_VARCHAR]
      rw [ioRead_ok f (offset + 68) 8 (toLeBytes 8 c.length) h4']
      simp only [hlenrt, Except.ok.injEq]
      cases c
      simp_all

/-- The column loop reconstructs the column list left by the writes. -/
theorem Table.readColumnsLoop_ok (f : File) (cs : List ColumnDefinition)
    (offset : Nat)
    (hread : ∀ i (hi : i < cs.length),
      readExactAt f (offset + ColumnDefinition.size * i) ColumnDefinition.size
        = some (cs.get ⟨i, hi⟩).bytes)
    (hcols : ∀ c ∈ cs, c.name.length = 64 ∧ c.length < 2 ^ 64) :
    Table.readColumnsLoop f offset cs.length = .ok cs := by
  induction cs generalizing f offset with
  | nil => rfl
  | cons c cs ih =>
      have h0 := hread 0 (by simp)
      have h0' : readExactAt f offset ColumnDefinition.size = some c.bytes := by
        have : offset + ColumnDefinition.size * 0 = offset := by omega
        rw [this] at h0
        exact h0
      have hc := hcols c (List.mem_cons_self c cs)
      have hcol := Table.readColumn_ok f offset c hc.1 hc.2 h0'
      have hrest : Table.readColumnsLoop f (offset + ColumnDefinition.size) cs.length
          = .ok cs := by
        refine ih f (offset + ColumnDefinition.size) (fun i hi => ?_)
          (fun x hx => hcols x (List.mem_cons_of_mem c hx))
        have := hread (i + 1) (by simp; omega)
        have hoff : offset + ColumnDefinition.size * (i + 1)
            = offset + ColumnDefinition.size + ColumnDefinition.size * i := by
          unfold ColumnDefinition.size
          omega
        rw [hoff] at this
        simpa using this
      show Table.readColumnsLoop f offset (cs.length + 1) = .ok (c :: cs)
      unfold Table.readColumnsLoop
      rw [hcol]
      simp only [bind, Except.bind, hrest]

/-- A file carrying the header of a well-formed `t` reads back as `t`. -/
theorem Table.read_from_disk_ok (t : Table) (f : File) (hwf : t.WF)
    (hh : t.headerOn f) :
    Table.read_from_disk f = .ok t := by
  obtain ⟨hname, hcc, hcclt, hcols, hrc⟩ := hwf
  obtain ⟨h1, h2, h3, h4⟩ := hh
  unfold Table.read_from_disk
  rw [ioRead_ok f 0 64 t.name h1, ioRead_ok f 64 4 (toLeBytes 4 t.column_count) h2]
  simp only [bind, Except.bind]
  have hccval : fromLeBytes (toLeBytes 4 t.column_count) = t.column_count := by
    rw [fromLeBytes_toLeBytes]
    exact Nat.mod_eq_of_lt (by rw [hcc]; exact_mod_cast hcclt)
  rw [hccval]
  have hloop : Table.readColumnsLoop f 68 t.column_count = .ok t.columns := by
    rw [hcc]
    exact Table.readColumnsLoop_ok f t.columns 68 (fun i hi => h3 i hi) hcols
  rw [hloop, ioRead_ok f (68 + t.column_count * ColumnDefinition.size) 8
    (toLeBytes 8 t.row_count) h4]
  have hrcval : fromLeBytes (toLeBytes 8 t.row_count) = t.row_count := by
    rw [fromLeBytes_toLeBytes]
    exact Nat.mod_eq_of_lt (by exact_mod_cast hrc)
  simp only [hrcval, Except.ok.injEq]

/-! ### Lemmas about `encodeRow` and `add_row` -/

theorem encodeRow_ok (cs : List ColumnDefinition) (vs : List (List Nat))
    (hlen : cs.length ≤ vs.length)
    (hfit : ∀ p ∈ vs.zip cs, p.1.length ≤ p.2.length) :
    ∃ bs, Table.encodeRow cs vs = some (.ok bs)
      ∧ bs.length = (cs.map fun c => c.length).sum := by
  induction cs generalizing vs with
  | nil => exact ⟨[], rfl, by simp⟩
  | cons c cs ih =>
      cases vs with
      | nil => simp at hlen
      | cons v vs =>
          have hhead : v.length ≤ c.length := by
            have hmem : (v, c) ∈ (v :: vs).zip (c :: cs) := by
              rw [List.zip_cons_cons]
              exact List.mem_cons_self _ _
            simpa using hfit (v, c) hmem
          obtain ⟨bs, hbs, hbslen⟩ := ih vs (by simpa using hlen)
            (fun p hp => hfit p (by rw [List.zip_cons_cons]; exact List.mem_cons_of_mem _ hp))
          refine ⟨(v ++ List.replicate (c.length - v.length) 0) ++ bs, ?_, ?_⟩
          · unfold Table.encodeRow
            rw [if_neg (by omega), hbs]
          · simp only [List.length_append, List.length_replicate, hbslen,
              List.map_cons, List.sum_cons]
            omega

theorem encodeRow_error (cs : List ColumnDefinition) (vs : List (List Nat))
    (hlen : cs.length = vs.length)
    (hbad : ∃ p ∈ vs.zip cs, p.2.length < p.1.length) :
    ∃ m, Table.encodeRow cs vs = some (.error m) := by
  induction cs generalizing vs with
  | nil =>
      obtain ⟨p, hp, _⟩ := hbad
      cases vs <;> simp at hp
  | cons c cs ih =>
      cases vs with
      | nil => simp at hlen
      | cons v vs =>
          rcases Nat.lt_or_ge c.length v.length with hcv | hcv
          · exact ⟨"Invalid column data", by unfold Table.encodeRow; rw [if_pos hcv]⟩
          · obtain ⟨p, hp, hplt⟩ := hbad
            rw [List.zip_cons_cons] at hp
            rcases List.mem_cons.mp hp with heq | htl
            · rw [heq] at hplt
              simp at hplt
              omega
            · obtain ⟨m, hm⟩ := ih vs (by simpa using hlen) ⟨p, htl, hplt⟩
              refine ⟨m, ?_⟩
              unfold Table.encodeRow
              rw [if_neg (by omega), hm]

/-- A successful `add_row` call: the table's only change is the incremented
row count; the file keeps every byte below the row-count field and gets the
new row count written at its fixed offset. -/
theorem Table.add_row_ok (t : Table) (r : Row) (f : File)
    (hrs : 0 < t.row_size)
    (hcc : t.column_count = t.columns.length)
    (hval : t.validRow r) :
    ∃ f', t.add_row r f = some (.ok (), { t with row_count := t.row_count + 1 }, f')
      ∧ (∀ j, j < 68 + t.column_count * ColumnDefinition.size → f' j = f j)
      ∧ readExactAt f' (68 + t.column_count * ColumnDefinition.size) 8
          = some (toLeBytes 8 (t.row_count + 1)) := by
  obtain ⟨hlen, hfit⟩ := hval
  obtain ⟨bs, hbs, hbslen⟩ := encodeRow_ok t.columns r.data (by omega) hfit
  have hbs' : bs.length = t.row_size := by
    rw [hbslen, Table.row_size_eq_sum]
  obtain ⟨P, hP⟩ : ∃ P, t.page_size = some P :=
    ⟨_, t.page_size_eq hrs⟩
  have hpc := t.page_count_eq P hP
  -- the preserved region and the row-count read-back, for any base file that
  -- agrees with `f` below `header_size`
  have hpres : ∀ (f1 : File), (∀ j, j < t.header_size → f1 j = f j) →
      ∀ j, j < 68 + t.column_count * ColumnDefinition.size →
      ({ t with row_count := t.row_count + 1 } : Table).write_row_count_to_disk
        (writeAllAt f1 bs (t.header_size + t.row_size * t.row_count)) j = f j := by
    intro f1 hf1 j hj
    unfold Table.write_row_count_to_disk
    rw [writeAllAt_apply_outside _ _ _ _ (Or.inl (by simpa using hj))]
    rw [writeAllAt_apply_outside _ _ _ _ (Or.inl (by
      unfold Table.header_size
      omega))]
    exact hf1 j (by unfold Table.header_size; omega)
  have hrcread : ∀ (f1 : File),
      readExactAt
        (({ t with row_count := t.row_count + 1 } : Table).write_row_count_to_disk
          (writeAllAt f1 bs (t.header_size + t.row_size * t.row_count)))
        (68 + t.column_count * ColumnDefinition.size) 8
        = some (toLeBytes 8 (t.row_count + 1)) := by
    intro f1
    unfold Table.write_row_count_to_disk
    have := readExactAt_writeAllAt
      (writeAllAt f1 bs (t.header_size + t.row_size * t.row_count))
      (toLeBytes 8 (t.row_count + 1)) (68 + t.column_count * ColumnDefinition.size)
    rw [toLeBytes_length] at this
    exact this
  unfold Table.add_row
  rw [if_neg (not_not_intro hlen)]
  simp only [hbs]
  rw [if_neg (not_not_intro hbs'), Table.last_page_at_limit_eq t P hP]
  cases hb : ((t.row_size * t.row_count) % P == 0) with
  | false =>
      exact ⟨_, rfl, hpres f (fun _ _ => rfl), hrcread f⟩
  | true =>
      unfold Table.add_page
      rw [hP, hpc]
      refine ⟨_, rfl, hpres _ (fun j hj => ?_), hrcread _⟩
      refine writeAllAt_apply_outside _ _ _ _ (Or.inl ?_)
      rcases Nat.eq_zero_or_pos t.row_count with h0 | h0
      · rw [if_pos h0]
        exact hj
      · rw [if_neg (by omega)]
        omega

/-- Iterating `add_row` over valid rows: the table just counts up, the
header region of the file is untouched, and the row-count field ends up
holding the final count. -/
theorem Table.addRowsRun_ok (t : Table) (f : File) (rows : List Row)
    (hrs : 0 < t.row_size)
    (hcc : t.column_count = t.columns.length)
    (hval : ∀ r ∈ rows, t.validRow r) :
    ∃ f', t.addRowsRun f rows
        = some ({ t with row_count := t.row_count + rows.length }, f')
      ∧ (∀ j, j < 68 + t.column_count * ColumnDefinition.size → f' j = f j)
      ∧ (rows = [] → f' = f)
      ∧ (rows ≠ [] →
          readExactAt f' (68 + t.column_count * ColumnDefinition.size) 8
            = some (toLeBytes 8 (t.row_count + rows.length))) := by
  induction rows generalizing t f with
  | nil =>
      refine ⟨f, ?_, fun _ _ => rfl, fun _ => rfl, fun h => absurd rfl h⟩
      show some (t, f) = _
      simp
  | cons r rest ih =>
      obtain ⟨f1, hstep, hpre1, hread1⟩ :=
        t.add_row_ok r f hrs hcc (hval r (List.mem_cons_self r rest))
      set t1 : Table := { t with row_count := t.row_count + 1 } with ht1
      have hrs1 : 0 < t1.row_size := hrs
      have hcc1 : t1.column_count = t1.columns.length := hcc
      have hval1 : ∀ x ∈ rest, t1.validRow x :=
        fun x hx => hval x (List.mem_cons_of_mem r hx)
      obtain ⟨f', hrun, hpre, hnil, hread⟩ := ih t1 f1 hrs1 hcc1 hval1
      have hrc1 : t1.row_count = t.row_count + 1 := rfl
      have hcount : t1.row_count + rest.length = t.row_count + (rest.length + 1) := by
        omega
      refine ⟨f', ?_, ?_, by simp, fun _ => ?_⟩
      · show Table.addRowsRun t f (r :: rest) = _
        unfold Table.addRowsRun
        rw [hstep]
        show Table.addRowsRun t1 f1 rest = _
        rw [hrun]
        have hlconv : (r :: rest).length = rest.length + 1 := rfl
        rw [hlconv, ← hcount]
      · intro j hj
        rw [hpre j hj, hpre1 j hj]
      · rcases List.eq_nil_or_concat rest with hre | _
        · subst hre
          rw [hnil rfl]
          simpa using hread1
        · have hne : rest ≠ [] := by
            rintro rfl
            simp_all
          rw [hread hne, hcount]
          rfl

/-- Iterating `add_row` with the allocation counter: the number of
`add_page` invocations is the number of steps entered with
`last_page_at_limit` true. -/
theorem Table.addRowRunAlloc_ok (t : Table) (f : File) (r : Row) (P : Nat)
    (hrs : 0 < t.row_size)
    (hcc : t.column_count = t.columns.length)
    (hval : t.validRow r)
    (hP : t.page_size = some P) :
    ∀ k, ∃ f', t.addRowRunAlloc f r k
      = some ({ t with row_count := t.row_count + k }, f',
          (List.range k).countP fun j => (t.row_size * (t.row_count + j)) % P == 0)
  | 0 => ⟨f, by
      show some (t, f, 0) = _
      simp⟩
  | k + 1 => by
      obtain ⟨f1, hrun⟩ := Table.addRowRunAlloc_ok t f r P hrs hcc hval hP k
      set t1 : Table := { t with row_count := t.row_count + k } with ht1
      obtain ⟨f2, hstep, _, _⟩ := t1.add_row_ok r f1 hrs hcc hval
      have hlim : t1.last_page_at_limit
          = some ((t.row_size * (t.row_count + k)) % P == 0) :=
        Table.last_page_at_limit_eq t1 P hP
      refine ⟨f2, ?_⟩
      have hrc : t1.row_count + 1 = t.row_count + (k + 1) := rfl
      show Table.addRowRunAlloc t f r (k + 1) = _
      unfold Table.addRowRunAlloc
      rw [hrun]
      show (match t1.last_page_at_limit, t1.add_row r f1 with
        | some b, some (.ok _, t2, f2) => some (t2, f2,
            ((List.range k).countP fun j =>
              (t.row_size * (t.row_count + j)) % P == 0) + (if b then 1 else 0))
        | _, _ => none) = _
      rw [hlim, hstep]
      rw [List.range_succ, List.countP_append]
      simp only [List.countP_cons, List.countP_nil, Nat.zero_add]
      rfl

/-! ### Lemmas about `page_rows` -/

theorem slice_eq (l : List Nat) (a b : Nat) (h1 : a ≤ b) (h2 : b ≤ l.length) :
    ∃ s, Table.slice l a b = some s ∧ s.length = b - a := by
  refine ⟨(l.drop a).take (b - a), ?_, ?_⟩
  · unfold Table.slice
    rw [if_pos ⟨h1, h2⟩]
  · rw [List.length_take, List.length_drop]
    omega

theorem decodeRowVals_isSome (cols : List ColumnDefinition) (rd : List Nat)
    (hfit : ∀ i (hi : i < cols.length),
      (cols.get ⟨i, hi⟩).length * (i + 1) ≤ rd.length) :
    ∃ vals, Table.decodeRowVals cols rd = some vals := by
  have h := mapOpt_isSome
    (fun p : Nat × ColumnDefinition =>
      Table.slice rd (p.2.length * p.1) (p.2.length * p.1 + p.2.length))
    cols.enum ?_
  · obtain ⟨vals, hv, _⟩ := h
    exact ⟨vals, hv⟩
  · intro p hp
    have hmem := List.mem_enum_iff_getElem?.mp hp
    have hlt : p.1 < cols.length := by
      have := List.getElem?_eq_some.mp hmem
      exact this.1
    have hget : cols.get ⟨p.1, hlt⟩ = p.2 := by
      have := List.getElem?_eq_some.mp hmem
      obtain ⟨h', hv⟩ := this
      simpa [List.get_eq_getElem] using hv
    have hb : p.2.length * p.1 + p.2.length ≤ rd.length := by
      have := hfit p.1 hlt
      rw [hget] at this
      have hmul : p.2.length * (p.1 + 1) = p.2.length * p.1 + p.2.length :=
        Nat.mul_succ _ _
      omega
    obtain ⟨s, hs, _⟩ := slice_eq rd (p.2.length * p.1)
      (p.2.length * p.1 + p.2.length) (by omega) hb
    simp [Table.decodeRowVals, hs]

/-- Source `page_rows` succeeds on any page-sized byte window and yields exactly
the count the source computes (page `row_size * row_count / P` is the page
the source treats as final). -/
theorem Table.page_rows_spec (t : Table) (P : Nat)
    (hrs : 0 < t.row_size) (hP : t.page_size = some P)
    (hfit : ∀ i (hi : i < t.columns.length),
      (t.columns.get ⟨i, hi⟩).length * (i + 1) ≤ t.row_size)
    (pg : Page) (hlen : pg.data.length = P) :
    ∃ rows, t.page_rows pg = some rows ∧
      rows.length = (if P / t.row_size < t.row_count then
          (if pg.page_number = t.row_size * t.row_count / P
            then t.row_count % (P / t.row_size) else P / t.row_size)
          else t.row_count) := by
  obtain ⟨hdvd, hle, hPpos, hPform⟩ := t.page_size_spec P hrs hP
  have hrippos : 0 < P / t.row_size := Nat.div_pos hle hrs
  have hPrip : (P / t.row_size) * t.row_size = P := by
    rw [Nat.mul_comm]
    omega
  have hdecode : ∀ cnt, cnt ≤ P / t.row_size →
      ∃ rows, mapOpt (fun i =>
          match Table.slice pg.data (i * t.row_size) (i * t.row_size + t.row_size) with
          | none => none
          | some row_data => (Table.decodeRowVals t.columns row_data).map Row.mk)
        (List.range cnt) = some rows ∧ rows.length = cnt := by
    intro cnt hcnt
    have h := mapOpt_isSome (fun i =>
        match Table.slice pg.data (i * t.row_size) (i * t.row_size + t.row_size) with
        | none => none
        | some row_data => (Table.decodeRowVals t.columns row_data).map Row.mk)
      (List.range cnt) ?_
    · obtain ⟨rows, hr, hrl⟩ := h
      exact ⟨rows, hr, by rw [hrl, List.length_range]⟩
    · intro i hi
      have hilt : i < cnt := List.mem_range.mp hi
      have hbound : i * t.row_size + t.row_size ≤ pg.data.length := by
        rw [hlen, ← hPrip]
        have : (i + 1) * t.row_size ≤ (P / t.row_size) * t.row_size :=
          Nat.mul_le_mul_right _ (by omega)
        have hmul : (i + 1) * t.row_size = i * t.row_size + t.row_size :=
          Nat.succ_mul _ _
        omega
      obtain ⟨s, hs, hsl⟩ := slice_eq pg.data (i * t.row_size)
        (i * t.row_size + t.row_size) (by omega) hbound
      obtain ⟨vals, hv⟩ := decodeRowVals_isSome t.columns s
        (fun j hj => le_trans (hfit j hj) (by omega))
      simp [hs, hv]
  unfold Table.page_rows
  rw [hP]
  rcases Nat.lt_or_ge (P / t.row_size) t.row_count with hgt | hge
  · -- more rows than fit on one page
    have hrc0 : t.row_count ≠ 0 := by omega
    rw [t.page_count_eq P hP]
    have hsub : t.row_size * t.row_count / P + 1 - 1
        = t.row_size * t.row_count / P := by simp
    simp only [if_pos hgt, if_neg hrc0, Option.map_some', hsub]
    by_cases hpn : pg.page_number = t.row_size * t.row_count / P
    · rw [if_pos hpn]
      exact hdecode _ (Nat.le_of_lt (Nat.mod_lt _ hrippos))
    · rw [if_neg hpn]
      exact hdecode _ (Nat.le_refl _)
  · -- everything fits on the first page
    simp only [if_neg (Nat.not_lt.mpr hge)]
    exact hdecode _ hge

/-! ### Counting page allocations -/

theorem countP_mod_range (q : Nat) (hq : 0 < q) :
    ∀ k, (List.range k).countP (fun j => j % q == 0) = (k + q - 1) / q
  | 0 => by
      rw [List.range_zero, List.countP_nil]
      exact (Nat.div_eq_of_lt (by omega)).symm
  | k + 1 => by
      rw [List.range_succ, List.countP_append, countP_mod_range q hq k]
      simp only [List.countP_cons, List.countP_nil, Nat.zero_add]
      have h1 : k + 1 + q - 1 = k + q := by omega
      rw [h1]
      have h2 : (k + q) / q = k / q + 1 := Nat.add_div_right k hq
      rcases Nat.eq_zero_or_pos (k % q) with hm | hm
      · have hk : q * (k / q) = k := by
          have := Nat.div_add_mod k q
          omega
        have h3 : k + q - 1 = q * (k / q) + (q - 1) := by omega
        have hb : (k % q == 0) = true := by simp [hm]
        have hdiv0 : (q - 1) / q = 0 := Nat.div_eq_of_lt (by omega)
        rw [h3, Nat.mul_add_div hq, hdiv0, h2, hb]
        simp
      · have hmq : k % q < q := Nat.mod_lt k hq
        have hk := Nat.div_add_mod k q
        have h3 : k + q - 1 = q * (k / q) + (k % q + q - 1) := by omega
        have h4 : (k % q + q - 1) / q = 1 :=
          Nat.div_eq_of_lt_le (by omega) (by omega)
        have hb : (k % q == 0) = false := by simp_all; omega
        rw [h3, Nat.mul_add_div hq, h4, h2, hb]
        simp

/-! ### Claim theorems -/

/-- Claim C7: for every table with positive `row_size()`, `page_size()`
equals `row_size()` when `row_size()` is at least the 128-byte target, and
otherwise the largest multiple of `row_size()` not exceeding 128;
consequently it is always a positive whole multiple of `row_size()`, so no
row spans a page boundary. -/
theorem C7_page_size_clamped (t : Table) (h : 0 < t.row_size) :
    ∃ P, t.page_size = some P ∧
      (128 ≤ t.row_size → P = t.row_size) ∧
      (t.row_size < 128 →
        t.row_size ∣ P ∧ P ≤ 128 ∧
          ∀ m, t.row_size ∣ m → m ≤ 128 → m ≤ P) ∧
      t.row_size ∣ P ∧ 0 < P := by
  obtain ⟨hdvd, hle, hpos, hform⟩ :=
    t.page_size_spec _ h (t.page_size_eq h)
  refine ⟨_, t.page_size_eq h, ?_, ?_, hdvd, hpos⟩
  · intro hge
    rw [if_neg (Nat.not_lt.mpr hge)]
  · intro hlt
    rw [if_pos hlt] at hform hdvd hpos ⊢
    refine ⟨hdvd, by omega, fun m hdm hm128 => ?_⟩
    obtain ⟨k, hk⟩ := hdm
    have hk128 : k * t.row_size ≤ 128 := by
      rw [Nat.mul_comm]
      omega
    have hk2 : k ≤ 128 / t.row_size := (Nat.le_div_iff_mul_le h).mpr hk128
    have hm : m ≤ t.row_size * (128 / t.row_size) := by
      calc m = t.row_size * k := hk
        _ ≤ t.row_size * (128 / t.row_size) := Nat.mul_le_mul_left _ hk2
    have hdm128 := Nat.div_add_mod 128 t.row_size
    generalize hg : t.row_size * (128 / t.row_size) = X at hm hdm128
    omega

/-- Witness for C7 at the concrete one-column table of length 11. -/
theorem C7_witness :
    0 < tableOne11.row_size ∧
    (∃ P, tableOne11.page_size = some P ∧
      (128 ≤ tableOne11.row_size → P = tableOne11.row_size) ∧
      (tableOne11.row_size < 128 →
        tableOne11.row_size ∣ P ∧ P ≤ 128 ∧
          ∀ m, tableOne11.row_size ∣ m → m ≤ 128 → m ≤ P) ∧
      tableOne11.row_size ∣ P ∧ 0 < P) :=
  ⟨by decide, C7_page_size_clamped tableOne11 (by decide)⟩

/-- Claim C10: when `row_size()` is zero, `page_size()` hits `128 % 0` and
panics rather than returning, and `page_count()`, `last_page_at_limit()`,
`add_page`, `page_at`, `page_rows` and `add_row` (on any row passing
validation) are likewise undefined; they are total only under the
precondition `row_size() > 0`. -/
theorem C10_zero_row_size (t : Table) (h : t.row_size = 0) :
    t.page_size = none ∧ t.page_count = none ∧ t.last_page_at_limit = none ∧
    (∀ f, t.add_page f = none) ∧
    (∀ f n, t.page_at f n = none) ∧
    (∀ p, t.page_rows p = none) ∧
    (∀ r f, r.data.length = t.column_count →
      (∀ p ∈ r.data.zip t.columns, p.1.length ≤ p.2.length) →
      t.columns.length ≤ r.data.length →
      t.add_row r f = none) := by
  have hps := t.page_size_none h
  have hpc : t.page_count = none := by simp [Table.page_count, hps]
  refine ⟨hps, hpc, by simp [Table.last_page_at_limit, hps], ?_, ?_, ?_, ?_⟩
  · intro f
    simp [Table.add_page, hps]
  · intro f n
    simp [Table.page_at, hpc]
  · intro p
    simp [Table.page_rows, hps]
  · intro r f hlen hfitvals hcov
    obtain ⟨bs, hbs, hbslen⟩ := encodeRow_ok t.columns r.data hcov hfitvals
    have hbs' : bs.length = t.row_size := by
      rw [hbslen, Table.row_size_eq_sum]
    unfold Table.add_row
    rw [if_neg (not_not_intro hlen)]
    simp only [hbs]
    rw [if_neg (not_not_intro hbs')]
    simp [Table.last_page_at_limit, hps]

/-- Witness for C10 at the concrete zero-column table with an empty row. -/
theorem C10_witness :
    tableNoCols.row_size = 0 ∧
    (tableNoCols.page_size = none ∧ tableNoCols.page_count = none ∧
      tableNoCols.last_page_at_limit = none ∧
      (∀ f, tableNoCols.add_page f = none) ∧
      (∀ f n, tableNoCols.page_at f n = none) ∧
      (∀ p, tableNoCols.page_rows p = none) ∧
      (∀ r f, r.data.length = tableNoCols.column_count →
        (∀ p ∈ r.data.zip tableNoCols.columns, p.1.length ≤ p.2.length) →
        tableNoCols.columns.length ≤ r.data.length →
        tableNoCols.add_row r f = none)) :=
  ⟨rfl, C10_zero_row_size tableNoCols rfl⟩

/-- Claim C6: `add_row` returns a validation error and leaves both the
table (in particular `row_count`) and the file exactly as they were
whenever the row's arity differs from `column_count` or some value exceeds
its column's declared length. -/
theorem C6_add_row_validation (t : Table) (r : Row) (f : File)
    (hcc : t.column_count = t.columns.length)
    (hbad : r.data.length ≠ t.column_count ∨
      (r.data.length = t.column_count ∧
        ∃ p ∈ r.data.zip t.columns, p.2.length < p.1.length)) :
    ∃ m, t.add_row r f = some (.error m, t, f) := by
  rcases hbad with hne | ⟨hlen, hbadp⟩
  · refine ⟨"Invalid row data expected " ++ toString t.column_count ++
      " columns got " ++ toString r.data.length ++ " ", ?_⟩
    unfold Table.add_row
    rw [if_pos hne]
  · obtain ⟨m, hm⟩ := encodeRow_error t.columns r.data (by omega) hbadp
    refine ⟨m, ?_⟩
    unfold Table.add_row
    rw [if_neg (not_not_intro hlen)]
    simp only [hm]

/-- Witness for C6: a 12-byte value for an 11-byte column is rejected with
the table and file untouched. -/
theorem C6_witness :
    (tableOne11.column_count = tableOne11.columns.length ∧
      (rowTooLong.data.length ≠ tableOne11.column_count ∨
        (rowTooLong.data.length = tableOne11.column_count ∧
          ∃ p ∈ rowTooLong.data.zip tableOne11.columns,
            p.2.length < p.1.length))) ∧
    ∃ m, tableOne11.add_row rowTooLong emptyFile
      = some (.error m, tableOne11, emptyFile) :=
  ⟨⟨by decide, Or.inr (by decide)⟩,
    C6_add_row_validation tableOne11 rowTooLong emptyFile (by decide)
      (Or.inr (by decide))⟩

/-- Claim C4: a table built by `Table::new` from a name of at most 64 bytes
and any column list (with the u32/u64 field bounds of the source types),
written with `write_to_disk` and read back with `read_from_disk`, is
reproduced identically — name, column definitions in order, and column
count. -/
theorem C4_round_trip (name : List Nat) (cols : List ColumnDefinition)
    (t : Table) (hnew : Table.new name cols = some t)
    (hcc : cols.length < 2 ^ 32)
    (hcols : ∀ c ∈ cols, c.name.length = 64 ∧ c.length < 2 ^ 64) (f : File) :
    Table.read_from_disk (t.write_to_disk f) = .ok t ∧
      t.name = name ++ List.replicate (64 - name.length) 0 ∧
      t.columns = cols ∧ t.column_count = cols.length := by
  unfold Table.new at hnew
  by_cases h64 : name.length ≤ 64
  · rw [if_pos h64] at hnew
    have ht := (Option.some.inj hnew).symm
    have hccval : cols.length % 2 ^ 32 = cols.length := Nat.mod_eq_of_lt hcc
    have hwf : t.WF := by
      rw [ht]
      refine ⟨by simp; omega, ?_, ?_, ?_, ?_⟩
      · exact hccval.symm ▸ hccval
      · exact hcc
      · exact hcols
      · exact Nat.pos_pow_of_pos 64 (by omega)
    refine ⟨Table.read_from_disk_ok t _ hwf (t.write_to_disk_headerOn f hwf),
      ?_, ?_, ?_⟩
    · rw [ht]
    · rw [ht]
    · rw [ht]
      exact hccval
  · rw [if_neg h64] at hnew
    exact absurd hnew (by simp)

/-- Witness for C4 at the concrete two-column `accounts` table. -/
theorem C4_witness :
    (Table.new (List.replicate 64 0) tableAccounts.columns
        = some tableAccounts ∧
      tableAccounts.columns.length < 2 ^ 32 ∧
      ∀ c ∈ tableAccounts.columns, c.name.length = 64 ∧ c.length < 2 ^ 64) ∧
    (Table.read_from_disk (tableAccounts.write_to_disk emptyFile)
        = .ok tableAccounts ∧
      tableAccounts.name
        = List.replicate 64 0 ++ List.replicate (64 - (List.replicate 64 0 : List Nat).length) 0 ∧
      tableAccounts.columns = tableAccounts.columns ∧
      tableAccounts.column_count = tableAccounts.columns.length) :=
  ⟨⟨by decide, by decide, by decide⟩,
    C4_round_trip (List.replicate 64 0) tableAccounts.columns tableAccounts
      (by decide) (by decide) (by decide) emptyFile⟩

/-- Claim C5: starting from a fresh well-formed table whose header has been
written, appending any list of `k` valid rows succeeds and the table read
back from the resulting file carries `row_count = k`. -/
theorem C5_row_count_persisted (t : Table) (f : File) (rows : List Row)
    (hwf : t.WF) (hrc0 : t.row_count = 0)
    (hrs : 0 < t.row_size)
    (hval : ∀ r ∈ rows, t.validRow r)
    (hk : rows.length < 2 ^ 64) :
    ∃ tk fk tr, t.addRowsRun (t.write_to_disk f) rows = some (tk, fk) ∧
      Table.read_from_disk fk = .ok tr ∧ tr.row_count = rows.length := by
  obtain ⟨hname, hcc, hcclt, hcols, hrcw⟩ := hwf
  have hho := t.write_to_disk_headerOn f ⟨hname, hcc, hcclt, hcols, hrcw⟩
  obtain ⟨h1, h2, h3, h4⟩ := hho
  obtain ⟨fk, hrun, hpre, hnil, hread⟩ :=
    t.addRowsRun_ok (t.write_to_disk f) rows hrs hcc hval
  have hlen0 : t.row_count + rows.length = rows.length := by omega
  rw [hlen0] at hrun hread
  set tr : Table := { t with row_count := rows.length } with htr
  have hwfr : tr.WF := ⟨hname, hcc, hcclt, hcols, hk⟩
  have hhor : tr.headerOn fk := by
    refine ⟨?_, ?_, ?_, ?_⟩
    · rw [readExactAt_congr fk (t.write_to_disk f) 0 64
        (fun j _ hj => hpre j (by
          unfold ColumnDefinition.size
          omega))]
      exact h1
    · rw [readExactAt_congr fk (t.write_to_disk f) 64 4
        (fun j _ hj => hpre j (by
          unfold ColumnDefinition.size
          omega))]
      exact h2
    · intro i hi
      have hi' : i < t.columns.length := hi
      rw [readExactAt_congr fk (t.write_to_disk f)
        (68 + ColumnDefinition.size * i) ColumnDefinition.size
        (fun j _ hj => hpre j (by
          unfold ColumnDefinition.size at hj ⊢
          rw [hcc]
          omega))]
      exact h3 i hi'
    · rcases List.eq_nil_or_concat rows with hre | hcons
      · subst hre
        rw [hnil rfl]
        simpa [hrc0] using h4
      · have hne : rows ≠ [] := by
          rintro rfl
          simp_all
        exact hread hne
  exact ⟨_, fk, tr, hrun, Table.read_from_disk_ok tr fk hwfr hhor, rfl⟩

/-- Witness for C5: three `["123","1"]` rows into the `accounts`
table. -/
theorem C5_witness :
    (tableAccounts.WF ∧ tableAccounts.row_count = 0 ∧
      0 < tableAccounts.row_size ∧
      (∀ r ∈ List.replicate 3 rowAccounts, tableAccounts.validRow r) ∧
      (List.replicate 3 rowAccounts).length < 2 ^ 64) ∧
    ∃ tk fk tr,
      tableAccounts.addRowsRun (tableAccounts.write_to_disk emptyFile)
          (List.replicate 3 rowAccounts) = some (tk, fk) ∧
      Table.read_from_disk fk = .ok tr ∧
      tr.row_count = (List.replicate 3 rowAccounts).length :=
  ⟨⟨⟨by decide, by decide, by decide, by decide, by decide⟩, rfl, by decide,
      by decide, by decide⟩,
    C5_row_count_persisted tableAccounts emptyFile
      (List.replicate 3 rowAccounts)
      ⟨by decide, by decide, by decide, by decide, by decide⟩ rfl (by decide)
      (by decide) (by decide)⟩

/-- Claim C2 (amended): `page_at` fails with the out-of-range error exactly
when `n > page_count()` — the source bound is strict, so `n = page_count()`
is accepted — and for every `n ≤ page_count()` it returns a read-only view
of exactly `page_size()` bytes at offset `header_size() + n * page_size()`. -/
theorem C2_page_at_bounds (t : Table) (f : File) (n pc P : Nat)
    (hpc : t.page_count = some pc) (hP : t.page_size = some P) :
    (t.page_at f n = some (.error "Invalid page number") ↔ pc < n) ∧
    (n ≤ pc →
      t.page_at f n = some (.ok
        { data := (List.range P).map fun i =>
            (f (t.header_size + n * P + i)).getD 0,
          page_number := n }) ∧
      ((List.range P).map fun i =>
          (f (t.header_size + n * P + i)).getD 0).length = P) := by
  unfold Table.page_at
  rw [hpc]
  dsimp only
  by_cases h : n > pc
  · rw [if_pos h]
    exact ⟨⟨fun _ => h, fun _ => rfl⟩, fun hle => absurd hle (by omega)⟩
  · rw [if_neg h, hP]
    constructor
    · constructor
      · intro hcontra
        simp at hcontra
      · intro hlt
        exact absurd hlt h
    · intro _
      exact ⟨rfl, by simp⟩

/-- Counterexample to C2 as stated: with one row in the one-column table,
`page_count()` is 1 yet `page_at` at page number 1 succeeds instead of
failing with the out-of-range error. -/
theorem C2_counterexample :
    ({ tableOne11 with row_count := 1 } : Table).page_count = some 1 ∧
    ({ tableOne11 with row_count := 1 } : Table).page_at emptyFile 1
      = some (.ok { data := List.replicate 121 0, page_number := 1 }) := by
  constructor
  · decide
  · decide

/-- Witness for the amended C2 at page number 0 of a one-row table. -/
theorem C2_witness :
    (({ tableOne11 with row_count := 1 } : Table).page_count = some 1 ∧
      ({ tableOne11 with row_count := 1 } : Table).page_size = some 121) ∧
    ((({ tableOne11 with row_count := 1 } : Table).page_at emptyFile 0
        = some (.error "Invalid page number") ↔ 1 < 0) ∧
      (0 ≤ 1 →
        ({ tableOne11 with row_count := 1 } : Table).page_at emptyFile 0
          = some (.ok
            { data := (List.range 121).map fun i =>
                (emptyFile (({ tableOne11 with row_count := 1 } : Table).header_size
                  + 0 * 121 + i)).getD 0,
              page_number := 0 }) ∧
        ((List.range 121).map fun i =>
            (emptyFile (({ tableOne11 with row_count := 1 } : Table).header_size
              + 0 * 121 + i)).getD 0).length = 121)) :=
  ⟨⟨by decide, by decide⟩,
    C2_page_at_bounds { tableOne11 with row_count := 1 } emptyFile 0 1 121
      (by decide) (by decide)⟩

/-- Claim C3 (amended): for a table whose per-column slicing stays inside
the row (true e.g. for equal-length columns), `page_rows` decodes
`P/R` rows on every non-final page, `row_count mod P/R` on the page the
source treats as final when `row_count > P/R`, and `row_count` rows
otherwise; the totals over pages `0 .. page_count()-1` equal `row_count` —
except when `row_count` exactly fills one page (`row_count = P/R`), where
the in-progress page is decoded a second time and the total is
`2 * row_count`. -/
theorem C3_page_rows_totals (t : Table) (P pc : Nat)
    (hrs : 0 < t.row_size) (hP : t.page_size = some P)
    (hpc : t.page_count = some pc)
    (hfit : ∀ i (hi : i < t.columns.length),
      (t.columns.get ⟨i, hi⟩).length * (i + 1) ≤ t.row_size) :
    (∀ pg : Page, pg.data.length = P →
      ∃ rows, t.page_rows pg = some rows ∧
        rows.length = (if P / t.row_size < t.row_count then
            (if pg.page_number = t.row_size * t.row_count / P
              then t.row_count % (P / t.row_size) else P / t.row_size)
            else t.row_count)) ∧
    (∑ pn ∈ Finset.range pc,
        (if P / t.row_size < t.row_count then
          (if pn = t.row_size * t.row_count / P
            then t.row_count % (P / t.row_size) else P / t.row_size)
          else t.row_count))
      = if t.row_count = P / t.row_size then 2 * t.row_count
        else t.row_count := by
  refine ⟨fun pg hlen => t.page_rows_spec P hrs hP hfit pg hlen, ?_⟩
  obtain ⟨hdvd, hle, hPpos, hPform⟩ := t.page_size_spec P hrs hP
  have hrip : 0 < P / t.row_size := Nat.div_pos hle hrs
  have hdivdiv : t.row_size * t.row_count / P = t.row_count / (P / t.row_size) := by
    conv_lhs => rw [hPform]
    rw [Nat.mul_div_mul_left _ _ hrs]
  have hpcv := t.page_count_eq P hP
  rw [hpc] at hpcv
  have hpcval := Option.some.inj hpcv
  rcases Nat.eq_zero_or_pos t.row_count with hrc0 | hrcpos
  · -- no rows: no pages, empty sum
    rw [if_pos hrc0] at hpcval
    subst hpcval
    rw [if_neg (by omega), hrc0]
    simp
  · rw [if_neg (by omega)] at hpcval
    rcases Nat.lt_trichotomy t.row_count (P / t.row_size) with hlt | heq | hgt
    · -- everything on the first page
      have hq0 : t.row_size * t.row_count / P = 0 := by
        rw [hdivdiv]
        exact Nat.div_eq_of_lt hlt
      rw [hq0] at hpcval
      subst hpcval
      rw [if_neg (by omega)]
      simp [if_neg (Nat.not_lt.mpr (Nat.le_of_lt hlt))]
    · -- the page is exactly full: the phantom page doubles the total
      have hq1 : t.row_size * t.row_count / P = 1 := by
        rw [hdivdiv, heq]
        exact Nat.div_self hrip
      rw [hq1] at hpcval
      subst hpcval
      rw [if_pos heq]
      have hnotlt : ¬ P / t.row_size < t.row_count := by omega
      rw [Finset.sum_congr rfl (fun pn _ => if_neg hnotlt)]
      rw [Finset.sum_const, Finset.card_range, smul_eq_mul]
    · -- several pages: pages below the final one carry P/R rows each
      have hq : t.row_size * t.row_count / P = t.row_count / (P / t.row_size) :=
        hdivdiv
      rw [hq] at hpcval
      subst hpcval
      rw [if_neg (by omega)]
      have hqpos : 0 < t.row_count / (P / t.row_size) :=
        Nat.div_pos (Nat.le_of_lt hgt) hrip
      rw [Finset.sum_range_succ]
      have hlast : (if P / t.row_size < t.row_count then
          (if t.row_count / (P / t.row_size) = t.row_size * t.row_count / P
            then t.row_count % (P / t.row_size) else P / t.row_size)
          else t.row_count) = t.row_count % (P / t.row_size) := by
        rw [if_pos hgt, if_pos hdivdiv.symm]
      have hbody : ∀ pn ∈ Finset.range (t.row_count / (P / t.row_size)),
          (if P / t.row_size < t.row_count then
            (if pn = t.row_size * t.row_count / P
              then t.row_count % (P / t.row_size) else P / t.row_size)
            else t.row_count) = P / t.row_size := by
        intro pn hpn
        have hpn' : pn < t.row_count / (P / t.row_size) := Finset.mem_range.mp hpn
        rw [if_pos hgt, if_neg (by rw [hdivdiv]; omega)]
      rw [Finset.sum_congr rfl hbody, Finset.sum_const, Finset.card_range,
        smul_eq_mul, hlast]
      have hdm := Nat.div_add_mod t.row_count (P / t.row_size)
      generalize hg : t.row_count / (P / t.row_size) * (P / t.row_size) = X
      rw [Nat.mul_comm] at hg
      omega

set_option maxRecDepth 40000 in
/-- Counterexample to C3 as stated: with `row_count = 11` exactly filling
one 121-byte page, `page_count()` is 2 and `page_rows` yields 11 rows on
page 0 and another 11 on the phantom page 1 — a total of 22, not 11. -/
theorem C3_counterexample :
    ({ tableOne11 with row_count := 11 } : Table).page_count = some 2 ∧
    (({ tableOne11 with row_count := 11 } : Table).page_rows pageZero121).map
        (fun rows => rows.length) = some 11 ∧
    (({ tableOne11 with row_count := 11 } : Table).page_rows pageOne121).map
        (fun rows => rows.length) = some 11 ∧
    11 + 11 ≠ 11 := by
  exact ⟨by decide, by decide, by decide, by decide⟩

/-- Witness for the amended C3 at the three-row `accounts`-style table. -/
theorem C3_witness :
    (0 < ({ tableOne11 with row_count := 3 } : Table).row_size ∧
      ({ tableOne11 with row_count := 3 } : Table).page_size = some 121 ∧
      ({ tableOne11 with row_count := 3 } : Table).page_count = some 1 ∧
      ∀ i (hi : i < ({ tableOne11 with row_count := 3 } : Table).columns.length),
        (({ tableOne11 with row_count := 3 } : Table).columns.get ⟨i, hi⟩).length
            * (i + 1)
          ≤ ({ tableOne11 with row_count := 3 } : Table).row_size) ∧
    ((∀ pg : Page, pg.data.length = 121 →
      ∃ rows, ({ tableOne11 with row_count := 3 } : Table).page_rows pg
          = some rows ∧
        rows.length = (if 121 / ({ tableOne11 with row_count := 3 } : Table).row_size
              < ({ tableOne11 with row_count := 3 } : Table).row_count then
            (if pg.page_number = ({ tableOne11 with row_count := 3 } : Table).row_size
                * ({ tableOne11 with row_count := 3 } : Table).row_count / 121
              then ({ tableOne11 with row_count := 3 } : Table).row_count
                % (121 / ({ tableOne11 with row_count := 3 } : Table).row_size)
              else 121 / ({ tableOne11 with row_count := 3 } : Table).row_size)
            else ({ tableOne11 with row_count := 3 } : Table).row_count)) ∧
    (∑ pn ∈ Finset.range 1,
        (if 121 / ({ tableOne11 with row_count := 3 } : Table).row_size
            < ({ tableOne11 with row_count := 3 } : Table).row_count then
          (if pn = ({ tableOne11 with row_count := 3 } : Table).row_size
              * ({ tableOne11 with row_count := 3 } : Table).row_count / 121
            then ({ tableOne11 with row_count := 3 } : Table).row_count
              % (121 / ({ tableOne11 with row_count := 3 } : Table).row_size)
            else 121 / ({ tableOne11 with row_count := 3 } : Table).row_size)
          else ({ tableOne11 with row_count := 3 } : Table).row_count))
      = if ({ tableOne11 with row_count := 3 } : Table).row_count
            = 121 / ({ tableOne11 with row_count := 3 } : Table).row_size
          then 2 * ({ tableOne11 with row_count := 3 } : Table).row_count
          else ({ tableOne11 with row_count := 3 } : Table).row_count) :=
  ⟨⟨by decide, by decide, by decide, by decide⟩,
    C3_page_rows_totals { tableOne11 with row_count := 3 } 121 1
      (by decide) (by decide) (by decide) (by decide)⟩

/-- Claim C1 (amended): from a fresh table, appending `P/R` valid rows
invokes `add_page` exactly once (the initial page), so no second page is
allocated, and the `(P/R + 1)`-st append invokes `add_page` exactly once
more.  `page_count()`, however, already counts the in-progress page when
the last page is exactly full: it equals 2 both after `P/R` appends and
after the extra append (so it does not change across the extra append),
except in the one-row-per-page case `P = R`, where it goes from 2 to 3. -/
theorem C1_page_boundary (t : Table) (f : File) (r : Row) (P : Nat)
    (hrs : 0 < t.row_size) (hcc : t.column_count = t.columns.length)
    (hval : t.validRow r) (hP : t.page_size = some P)
    (hrc0 : t.row_count = 0) :
    (∃ f1, t.addRowRunAlloc f r (P / t.row_size)
        = some ({ t with row_count := P / t.row_size }, f1, 1)) ∧
    (∃ f2, t.addRowRunAlloc f r (P / t.row_size + 1)
        = some ({ t with row_count := P / t.row_size + 1 }, f2, 2)) ∧
    ({ t with row_count := P / t.row_size } : Table).page_count = some 2 ∧
    ({ t with row_count := P / t.row_size + 1 } : Table).page_count
      = some (if P = t.row_size then 3 else 2) := by
  obtain ⟨hdvd, hle, hPpos, hPform⟩ := t.page_size_spec P hrs hP
  have hq1 : 1 ≤ P / t.row_size := Nat.div_pos hle hrs
  have hPq : P = t.row_size * (P / t.row_size) := hPform
  -- the allocation predicate counts exactly the multiples of P/R
  have hpred : ∀ k, ((List.range k).countP fun j =>
        (t.row_size * (t.row_count + j)) % P == 0)
      = (k + P / t.row_size - 1) / (P / t.row_size) := by
    intro k
    rw [List.countP_congr ?_]
    · exact countP_mod_range (P / t.row_size) hq1 k
    · intro j _
      have hbool : ((t.row_size * (t.row_count + j)) % P == 0)
          = (j % (P / t.row_size) == 0) := by
        rw [hrc0, Nat.zero_add]
        conv_lhs => rw [hPq, Nat.mul_mod_mul_left]
        cases hz : j % (P / t.row_size) with
        | zero => rw [Nat.mul_zero]
        | succ m =>
            have hne : t.row_size * (m + 1) ≠ 0 :=
              Nat.mul_ne_zero (by omega) (by omega)
            rw [beq_eq_false_iff_ne.mpr hne,
              beq_eq_false_iff_ne.mpr (Nat.succ_ne_zero m)]
      rw [hbool]
  have hc1 : ((List.range (P / t.row_size)).countP fun j =>
        (t.row_size * (t.row_count + j)) % P == 0) = 1 := by
    rw [hpred]
    have h1 : P / t.row_size + P / t.row_size - 1
        = (P / t.row_size - 1) + P / t.row_size := by omega
    rw [h1, Nat.add_div_right _ hq1, Nat.div_eq_of_lt (by omega)]
  have hc2 : ((List.range (P / t.row_size + 1)).countP fun j =>
        (t.row_size * (t.row_count + j)) % P == 0) = 2 := by
    rw [hpred]
    have h1 : P / t.row_size + 1 + P / t.row_size - 1
        = P / t.row_size + P / t.row_size := by omega
    rw [h1, Nat.add_div_right _ hq1, Nat.div_self hq1]
  obtain ⟨f1, hrun1⟩ := t.addRowRunAlloc_ok f r P hrs hcc hval hP (P / t.row_size)
  obtain ⟨f2, hrun2⟩ := t.addRowRunAlloc_ok f r P hrs hcc hval hP (P / t.row_size + 1)
  rw [hc1, hrc0, Nat.zero_add] at hrun1
  rw [hc2, hrc0, Nat.zero_add] at hrun2
  have hP1 : ({ t with row_count := P / t.row_size } : Table).page_size
      = some P := hP
  have hP2 : ({ t with row_count := P / t.row_size + 1 } : Table).page_size
      = some P := hP
  refine ⟨⟨f1, hrun1⟩, ⟨f2, hrun2⟩, ?_, ?_⟩
  · rw [Table.page_count_eq _ P hP1]
    show some (if P / t.row_size = 0 then 0
      else t.row_size * (P / t.row_size) / P + 1) = some 2
    rw [if_neg (by omega), ← hPq, Nat.div_self hPpos]
  · rw [Table.page_count_eq _ P hP2]
    show some (if P / t.row_size + 1 = 0 then 0
      else t.row_size * (P / t.row_size + 1) / P + 1) = some (if P = t.row_size then 3 else 2)
    rw [if_neg (by omega)]
    have hexp : t.row_size * (P / t.row_size + 1) = P + t.row_size := by
      rw [Nat.mul_succ, ← hPq]
    rw [hexp, Nat.add_comm P t.row_size, Nat.add_div_right _ hPpos]
    by_cases hPR : P = t.row_size
    · rw [if_pos hPR, hPR, Nat.div_self hrs]
    · rw [if_neg hPR, Nat.div_eq_of_lt (by omega)]

/-- Counterexample to C1 as stated: in the one-column table (`R = 11`,
`P = 121`, `P/R = 11`), running 11 appends allocates one page and running
12 allocates two — but `page_count()` is 2 after the 11th append and still
2 after the 12th, so it does not increase by 1 across the extra append. -/
theorem C1_counterexample :
    (tableOne11.addRowRunAlloc emptyFile rowOne 11).map
        (fun x => (x.1.page_count, x.2.2)) = some (some 2, 1) ∧
    (tableOne11.addRowRunAlloc emptyFile rowOne 12).map
        (fun x => (x.1.page_count, x.2.2)) = some (some 2, 2) := by
  exact ⟨by decide, by decide⟩

/-- Witness for the amended C1 at the concrete one-column table. -/
theorem C1_witness :
    (0 < tableOne11.row_size ∧
      tableOne11.column_count = tableOne11.columns.length ∧
      tableOne11.validRow rowOne ∧
      tableOne11.page_size = some 121 ∧ tableOne11.row_count = 0) ∧
    ((∃ f1, tableOne11.addRowRunAlloc emptyFile rowOne (121 / tableOne11.row_size)
        = some ({ tableOne11 with row_count := 121 / tableOne11.row_size }, f1, 1)) ∧
    (∃ f2, tableOne11.addRowRunAlloc emptyFile rowOne (121 / tableOne11.row_size + 1)
        = some ({ tableOne11 with
            row_count := 121 / tableOne11.row_size + 1 }, f2, 2)) ∧
    ({ tableOne11 with row_count := 121 / tableOne11.row_size } : Table).page_count
        = some 2 ∧
    ({ tableOne11 with row_count := 121 / tableOne11.row_size + 1 } : Table).page_count
        = some (if 121 = tableOne11.row_size then 3 else 2)) :=
  ⟨⟨by decide, by decide, by decide, by decide, rfl⟩,
    C1_page_boundary tableOne11 emptyFile rowOne 121 (by decide) (by decide)
      (by decide) (by decide) rfl⟩

/-- Reading a raw 76-byte column slot with an arbitrary stored type code:
codes 1 and 2 decode, anything else raises `DbError` quoting only the
first byte of the code. -/
theorem Table.readColumn_raw (f : File) (offset : Nat) (cname : List Nat)
    (code len : Nat) (hcname : cname.length = 64) (hcode : code < 2 ^ 32)
    (hlen : len < 2 ^ 64)
    (h : readExactAt f offset 76
      = some (cname ++ toLeBytes 4 code ++ toLeBytes 8 len)) :
    Table.readColumn f offset
      = if code = 1 then
          .ok { name := cname, column_type := ColumnType.Int, length := len }
        else if code = 2 then
          .ok { name := cname, column_type := ColumnType.Varchar, length := len }
        else
          .error (.DbError ("Invalid column type: " ++ toString (code % 256))) := by
  rw [List.append_assoc] at h
  obtain ⟨h1, h2⟩ := readExactAt_add f offset 64 12 _ h
  have htake : (cname ++ (toLeBytes 4 code ++ toLeBytes 8 len)).take 64 = cname := by
    rw [List.take_append_of_le_length (by omega), List.take_of_length_le (by omega)]
  have hdrop : (cname ++ (toLeBytes 4 code ++ toLeBytes 8 len)).drop 64
      = toLeBytes 4 code ++ toLeBytes 8 len := by
    rw [List.drop_append_of_le_length (by omega), List.drop_of_length_le (by omega)]
    simp
  rw [htake] at h1
  rw [hdrop] at h2
  obtain ⟨h3, h4⟩ := readExactAt_add f (offset + 64) 4 8 _ h2
  have htb : (toLeBytes 4 code ++ toLeBytes 8 len).take 4 = toLeBytes 4 code := by
    rw [List.take_append_of_le_length (by rw [toLeBytes_length]),
      List.take_of_length_le (by rw [toLeBytes_length])]
  have hlb : (toLeBytes 4 code ++ toLeBytes 8 len).drop 4 = toLeBytes 8 len := by
    rw [List.drop_append_of_le_length (by rw [toLeBytes_length]),
      List.drop_of_length_le (by rw [toLeBytes_length])]
    simp
  rw [htb] at h3
  rw [hlb] at h4
  have h4' : readExactAt f (offset + 68) 8 = some (toLeBytes 8 len) := by
    have hoff : offset + 64 + 4 = offset + 68 := by omega
    rw [← hoff]
    exact h4
  have hfrom : fromLeBytes (toLeBytes 4 code) = code := by
    rw [fromLeBytes_toLeBytes]
    exact Nat.mod_eq_of_lt (by exact_mod_cast hcode)
  have hlenval : fromLeBytes (toLeBytes 8 len) = len := by
    rw [fromLeBytes_toLeBytes]
    exact Nat.mod_eq_of_lt (by exact_mod_cast hlen)
  unfold Table.readColumn
  rw [ioRead_ok f offset 64 cname h1, ioRead_ok f (offset + 64) 4 (toLeBytes 4 code) h3]
  simp only [bind, Except.bind, hfrom]
  match code, hcode with
  | 0, _ =>
      rfl
  | 1, _ =>
      rw [ioRead_ok f (offset + 68) 8 (toLeBytes 8 len) h4']
      simp only [hlenval]
      rfl
  | 2, _ =>
      rw [ioRead_ok f (offset + 68) 8 (toLeBytes 8 len) h4']
      simp only [hlenval]
      rfl
  | (m + 3), _ =>
      rfl

/-- Claim C8 (amended): reading a one-column table file whose stored u32
type code is neither 1 nor 2 fails with the format error `DbError`, whose
message quotes the first byte of the code (`code mod 256`) rather than the
full code; codes 1 and 2 decode to `Int` and `Varchar` respectively. -/
theorem C8_column_type_codes (name cname : List Nat) (code len rc : Nat)
    (hname : name.length = 64) (hcname : cname.length = 64)
    (hcode : code < 2 ^ 32) (hlen : len < 2 ^ 64) (hrc : rc < 2 ^ 64) :
    (code ≠ 1 → code ≠ 2 →
      Table.read_from_disk (mkRawTableFile name [(cname, code, len)] rc)
        = .error (.DbError ("Invalid column type: " ++ toString (code % 256)))) ∧
    (code = 1 →
      Table.read_from_disk (mkRawTableFile name [(cname, code, len)] rc)
        = .ok { name := name, column_count := 1,
                columns := [{ name := cname, column_type := ColumnType.Int,
                              length := len }],
                row_count := rc }) ∧
    (code = 2 →
      Table.read_from_disk (mkRawTableFile name [(cname, code, len)] rc)
        = .ok { name := name, column_count := 1,
                columns := [{ name := cname, column_type := ColumnType.Varchar,
                              length := len }],
                row_count := rc }) := by
  have hF : mkRawTableFile name [(cname, code, len)] rc
      = writeAllAt (writeAllAt (writeAllAt (writeAllAt emptyFile name 0)
          (toLeBytes 4 1) 64)
          (cname ++ toLeBytes 4 code ++ toLeBytes 8 len) 68)
        (toLeBytes 8 rc) (68 + 1 * ColumnDefinition.size) := rfl
  have hcollen : (cname ++ toLeBytes 4 code ++ toLeBytes 8 len).length = 76 := by
    simp [hcname, toLeBytes_length]
  have hr_name : readExactAt (mkRawTableFile name [(cname, code, len)] rc)
      0 64 = some name := by
    rw [hF, readExactAt_writeAllAt_disjoint _ _ _ _ _ (Or.inl (by
        unfold ColumnDefinition.size
        omega)),
      readExactAt_writeAllAt_disjoint _ _ _ _ _ (Or.inl (by omega)),
      readExactAt_writeAllAt_disjoint _ _ _ _ _ (Or.inl (by omega))]
    have := readExactAt_writeAllAt emptyFile name 0
    rw [hname] at this
    exact this
  have hr_cc : readExactAt (mkRawTableFile name [(cname, code, len)] rc)
      64 4 = some (toLeBytes 4 1) := by
    rw [hF, readExactAt_writeAllAt_disjoint _ _ _ _ _ (Or.inl (by
        unfold ColumnDefinition.size
        omega)),
      readExactAt_writeAllAt_disjoint _ _ _ _ _ (Or.inl (by omega))]
    have := readExactAt_writeAllAt (writeAllAt emptyFile name 0) (toLeBytes 4 1) 64
    rw [toLeBytes_length] at this
    exact this
  have hr_col : readExactAt (mkRawTableFile name [(cname, code, len)] rc)
      68 76 = some (cname ++ toLeBytes 4 code ++ toLeBytes 8 len) := by
    rw [hF, readExactAt_writeAllAt_disjoint _ _ _ _ _ (Or.inl (by
        unfold ColumnDefinition.size
        omega))]
    have := readExactAt_writeAllAt
      (writeAllAt (writeAllAt emptyFile name 0) (toLeBytes 4 1) 64)
      (cname ++ toLeBytes 4 code ++ toLeBytes 8 len) 68
    rw [hcollen] at this
    exact this
  have hr_rc : readExactAt (mkRawTableFile name [(cname, code, len)] rc)
      (68 + 1 * ColumnDefinition.size) 8 = some (toLeBytes 8 rc) := by
    rw [hF]
    have := readExactAt_writeAllAt
      (writeAllAt (writeAllAt (writeAllAt emptyFile name 0) (toLeBytes 4 1) 64)
        (cname ++ toLeBytes 4 code ++ toLeBytes 8 len) 68)
      (toLeBytes 8 rc) (68 + 1 * ColumnDefinition.size)
    rw [toLeBytes_length] at this
    exact this
  have hcc1 : fromLeBytes (toLeBytes 4 1) = 1 := by
    rw [fromLeBytes_toLeBytes]
    exact Nat.mod_eq_of_lt (by norm_num)
  refine ⟨?_, ?_, ?_⟩
  · -- unknown code: the loop fails with the DbError
    intro hne1 hne2
    have hcol := Table.readColumn_raw _ 68 cname code len hcname hcode hlen hr_col
    rw [if_neg hne1, if_neg hne2] at hcol
    unfold Table.read_from_disk
    rw [ioRead_ok _ _ _ _ hr_name, ioRead_ok _ _ _ _ hr_cc]
    simp only [bind, Except.bind, hcc1]
    have hloop : Table.readColumnsLoop (mkRawTableFile name [(cname, code, len)] rc)
        68 1 = .error (.DbError ("Invalid column type: " ++ toString (code % 256))) := by
      show Table.readColumnsLoop (mkRawTableFile name [(cname, code, len)] rc)
        68 (0 + 1) = _
      unfold Table.readColumnsLoop
      rw [hcol]
      rfl
    rw [hloop]
  · -- code 1 decodes to Int
    intro hc
    subst hc
    have hwf : Table.WF ({ name := name,
                           column_count := 1,
                           columns := [{ name := cname,
                                         column_type := ColumnType.Int,
                                         length := len }],
                           row_count := rc } : Table) := by
      refine ⟨hname, rfl, by norm_num, ?_, hrc⟩
      intro c hcmem
      simp only [List.mem_singleton] at hcmem
      rw [hcmem]
      exact ⟨hcname, hlen⟩
    refine Table.read_from_disk_ok _ _ hwf ⟨hr_name, hr_cc, ?_, hr_rc⟩
    intro i hi
    have hi0 : i = 0 := by
      simpa using hi
    subst hi0
    have hoff : (68 : Nat) + ColumnDefinition.size * 0 = 68 := by
      unfold ColumnDefinition.size
      omega
    rw [hoff]
    exact hr_col
  · -- code 2 decodes to Varchar
    intro hc
    subst hc
    have hwf : Table.WF ({ name := name,
                           column_count := 1,
                           columns := [{ name := cname,
                                         column_type := ColumnType.Varchar,
                                         length := len }],
                           row_count := rc } : Table) := by
      refine ⟨hname, rfl, by norm_num, ?_, hrc⟩
      intro c hcmem
      simp only [List.mem_singleton] at hcmem
      rw [hcmem]
      exact ⟨hcname, hlen⟩
    refine Table.read_from_disk_ok _ _ hwf ⟨hr_name, hr_cc, ?_, hr_rc⟩
    intro i hi
    have hi0 : i = 0 := by
      simpa using hi
    subst hi0
    have hoff : (68 : Nat) + ColumnDefinition.size * 0 = 68 := by
      unfold ColumnDefinition.size
      omega
    rw [hoff]
    exact hr_col

/-- Counterexample to C8 as stated: with stored code 257, the error message
names "1" — the first byte of the code — not the offending code 257. -/
theorem C8_counterexample :
    Table.read_from_disk badTypeFile
      = .error (.DbError ("Invalid column type: " ++ toString (1 : Nat))) ∧
    ("Invalid column type: " ++ toString (1 : Nat))
      ≠ ("Invalid column type: " ++ toString (257 : Nat)) := by
  exact ⟨by decide, by decide⟩

/-- Witness for the amended C8 at the concrete code 3. -/
theorem C8_witness :
    ((List.replicate 64 0 : List Nat).length = 64 ∧ (3 : Nat) < 2 ^ 32 ∧
      (5 : Nat) < 2 ^ 64 ∧ (0 : Nat) < 2 ^ 64) ∧
    (((3 : Nat) ≠ 1 → (3 : Nat) ≠ 2 →
      Table.read_from_disk (mkRawTableFile (List.replicate 64 0)
          [(List.replicate 64 0, 3, 5)] 0)
        = .error (.DbError ("Invalid column type: " ++ toString ((3 : Nat) % 256)))) ∧
    ((3 : Nat) = 1 →
      Table.read_from_disk (mkRawTableFile (List.replicate 64 0)
          [(List.replicate 64 0, 3, 5)] 0)
        = .ok { name := List.replicate 64 0, column_count := 1,
                columns := [{ name := List.replicate 64 0,
                              column_type := ColumnType.Int, length := 5 }],
                row_count := 0 }) ∧
    ((3 : Nat) = 2 →
      Table.read_from_disk (mkRawTableFile (List.replicate 64 0)
          [(List.replicate 64 0, 3, 5)] 0)
        = .ok { name := List.replicate 64 0, column_count := 1,
                columns := [{ name := List.replicate 64 0,
                              column_type := ColumnType.Varchar, length := 5 }],
                row_count := 0 })) :=
  ⟨⟨by decide, by decide, by decide, by decide⟩,
    C8_column_type_codes (List.replicate 64 0) (List.replicate 64 0) 3 5 0
      (by decide) (by decide) (by decide) (by decide) (by decide)⟩

/-- Claim C9 (refuted): `DatabaseFileHeader::read_from_disk` calls
`.unwrap()` on the header read, so an empty file — expected bad I/O input —
panics instead of returning an error result; likewise `Table::new` panics
on a 65-byte name instead of failing with a "name too long" error. -/
theorem C9_header_read_panics :
    DatabaseFileHeader.read_from_disk emptyFile = none ∧
    Table.new (List.replicate 65 0) [] = none := by
  exact ⟨rfl, by decide⟩

end CityDb
